import Mathlib

/-!
Verification of the proof-of-sql filter/equality arithmetization layer.

This file shallowly embeds the Rust sources of the repository:
  * `sql/proof_plans/filter_exec.rs` (`prove_filter`, `verify_filter`,
    `FilterExec::{first,final}_round_evaluate`, `OstensibleFilterExec::verifier_evaluate`),
  * `sql/proof_exprs/equals_expr.rs` (`EqualsExpr`, the equals-to-zero gadget),
  * `proof_primitive/hyperkzg/commitment.rs` (CPU commitment computation,
    serde round trip),
  * `base/commitment/column_commitments.rs` (`ColumnCommitments` operations).

Helper functions whose sources are outside the provided tree
(`fold_columns`, `fold_vals`, `slice_ops::batch_inversion`,
`slice_ops::add_const`, `filter_util::filter_columns`,
`add_subtract_columns`, `try_equals_types`,
`ColumnCommitmentMetadataMap::try_union`/`try_difference`,
`VecCommitmentExt::try_add`/`try_sub`) are modelled from the
natural-language specification; each such definition carries a doc
comment starting with `Modelled from the spec:`.
-/

set_option linter.unusedSectionVars false
set_option linter.unusedVariables false

namespace ProofOfSql

/-- `ZMod 5` serves as the concrete scalar field for witness evaluations. -/
instance : Fact (Nat.Prime 5) := ⟨by norm_num⟩

/-- The two kinds of sumcheck subpolynomial constraints
(`SumcheckSubpolynomialType` in the source). -/
inductive SumcheckSubpolynomialType where
  | ZeroSum
  | Identity
deriving DecidableEq, Repr

section ScalarPrimitives

variable {F : Type} [Field F] [DecidableEq F]

/-- Modelled from the spec: batch field inversion maps each entry to its
field inverse, "with zero mapped to zero" (pseudo-inverse of one scalar). -/
def pseudoInv (x : F) : F := if x = 0 then 0 else x⁻¹

/-- Modelled from the spec: `slice_ops::batch_inversion` replaces every slice
entry by its pseudo-inverse (field inverse where nonzero, zero stays zero). -/
def batchInversion (xs : List F) : List F := xs.map pseudoInv

/-- Modelled from the spec: `slice_ops::add_const` adds a constant to every
entry of a slice. -/
def addConst (c : F) (xs : List F) : List F := xs.map (fun x => x + c)

/-- Modelled from the spec: `fold_vals(beta, vals)` is the beta-weighted fold
`Σ_k beta^k * vals[k]` of a list of scalars (Horner evaluation). -/
def foldVals (beta : F) (vals : List F) : F :=
  vals.foldr (fun v acc => v + beta * acc) 0

/-- A boolean column viewed as scalars (true ↦ 1, false ↦ 0), which is how a
`&[bool]` slice is read as a multilinear extension. -/
def boolToF (b : Bool) : F := if b then 1 else 0

/-- Modelled from the spec: `filter_util::filter_columns` keeps, within one
column, exactly the rows whose selection entry is true, in order. -/
def maskFilter {α : Type} : List α → List Bool → List α
  | [], _ => []
  | _, [] => []
  | x :: xs, b :: bs => if b then x :: maskFilter xs bs else maskFilter xs bs

/-- Number of true entries of a selection vector (the output length `m`). -/
def countTrue (s : List Bool) : Nat := s.countP (fun b => b)

/-- Modelled from the spec: `fold_columns(res, alpha, beta, columns)` fills
`res[i] = alpha * Σ_k beta^k * columns[k][i]` for each of the `n` rows. -/
def foldColumns (alpha beta : F) : Nat → List (List F) → List F
  | 0, _ => []
  | n + 1, cols =>
      (alpha * foldVals beta (cols.map (fun c => c.headD 0))) ::
        foldColumns alpha beta n (cols.map List.tail)

/-- The product, at row `i`, of a term's column multiplicands; rows past a
column's length read as zero (sumcheck zero-padding). -/
def termProdAt (cols : List (List F)) (i : Nat) : F :=
  (cols.map (fun col => col.getD i 0)).prod

/-- The value, at row `i`, of a sumcheck subpolynomial given as a weighted
sum of products of columns. -/
def subpolyAt (terms : List (F × List (List F))) (i : Nat) : F :=
  (terms.map (fun t => t.1 * termProdAt t.2 i)).sum

/-- A `ZeroSum` constraint holds over a domain of `N` rows when the term
values sum to zero. -/
def zeroSumHolds (terms : List (F × List (List F))) (N : Nat) : Prop :=
  ∑ i ∈ Finset.range N, subpolyAt terms i = 0

/-- An `Identity` constraint holds when the term value vanishes at every row. -/
def identityHolds (terms : List (F × List (List F))) : Prop :=
  ∀ i, subpolyAt terms i = 0

end ScalarPrimitives

section ScalarLemmas

variable {F : Type} [Field F] [DecidableEq F]

theorem foldColumns_length (alpha beta : F) (n : Nat) (cols : List (List F)) :
    (foldColumns alpha beta n cols).length = n := by
  induction n generalizing cols with
  | zero => rfl
  | succ n ih => simp [foldColumns, ih]

theorem maskFilter_nil_right {α : Type} (xs : List α) : maskFilter xs [] = [] := by
  cases xs <;> rfl

theorem maskFilter_length {α : Type} (xs : List α) (s : List Bool)
    (h : xs.length = s.length) : (maskFilter xs s).length = countTrue s := by
  induction xs generalizing s with
  | nil =>
    cases s with
    | nil => rfl
    | cons b bs => simp at h
  | cons x xs ih =>
    cases s with
    | nil => simp at h
    | cons b bs =>
      simp only [List.length_cons, Nat.succ.injEq] at h
      have ihb := ih bs h
      cases b <;> simp [maskFilter, countTrue, List.countP_cons, countTrue] at ihb ⊢ <;>
        omega

theorem countTrue_le_length (s : List Bool) : countTrue s ≤ s.length :=
  List.countP_le_length _

theorem maskFilter_map {α β : Type} (f : α → β) (xs : List α) (s : List Bool) :
    maskFilter (xs.map f) s = (maskFilter xs s).map f := by
  induction xs generalizing s with
  | nil => cases s <;> rfl
  | cons x xs ih =>
    cases s with
    | nil => rfl
    | cons b bs => cases b <;> simp [maskFilter, ih]

theorem getD_map_of_lt {α β : Type} (f : α → β) (xs : List α) (i : Nat)
    (h : i < xs.length) (d : β) (d' : α) :
    (xs.map f).getD i d = f (xs.getD i d') := by
  induction xs generalizing i with
  | nil => simp at h
  | cons x xs ih =>
    cases i with
    | zero => rfl
    | succ i =>
      simp only [List.length_cons, Nat.succ_lt_succ_iff] at h
      simpa using ih i h

theorem getD_of_le {α : Type} (xs : List α) (i : Nat) (h : xs.length ≤ i) (d : α) :
    xs.getD i d = d := by
  induction xs generalizing i with
  | nil => cases i <;> rfl
  | cons x xs ih =>
    cases i with
    | zero => simp at h
    | succ i =>
      simp only [List.length_cons, Nat.succ_le_succ_iff] at h
      simpa using ih i h

theorem getD_replicate_one (n i : Nat) (h : i < n) :
    (List.replicate n (1 : F)).getD i 0 = 1 := by
  induction n generalizing i with
  | zero => simp at h
  | succ n ih =>
    cases i with
    | zero => rfl
    | succ i =>
      simp only [Nat.succ_lt_succ_iff] at h
      simpa [List.replicate] using ih i h

theorem foldColumns_getD (alpha beta : F) (n : Nat) (cols : List (List F))
    (i : Nat) (h : i < n) :
    (foldColumns alpha beta n cols).getD i 0 =
      alpha * foldVals beta (cols.map (fun c => c.getD i 0)) := by
  induction n generalizing cols i with
  | zero => simp at h
  | succ n ih =>
    cases i with
    | zero =>
      simp only [foldColumns, List.getD_cons_zero]
      congr 2
      apply List.map_congr_left
      intro c _
      cases c <;> rfl
    | succ i =>
      simp only [Nat.succ_lt_succ_iff] at h
      simp only [foldColumns, List.getD_cons_succ]
      rw [ih _ i h]
      congr 1
      congr 1
      rw [List.map_map]
      congr 1
      funext c
      cases c <;> simp

/-- Reading row `i+1` of a column is reading row `i` of its tail. -/
theorem getD_tail (c : List F) (i : Nat) : c.tail.getD i 0 = c.getD (i + 1) 0 := by
  cases c <;> simp

/-- Filtering a column of positive length unfolds the head. -/
theorem maskFilter_eq_of_length_succ (col : List F) (k : Nat) (b : Bool)
    (bs : List Bool) (h : col.length = k + 1) :
    maskFilter col (b :: bs) =
      if b then col.headD 0 :: maskFilter col.tail bs else maskFilter col.tail bs := by
  cases col with
  | nil => simp at h
  | cons x xs => cases b <;> rfl

/-- Key commutation: the fold of the filtered columns is the filtered fold of
the original columns. -/
theorem foldColumns_maskFilter (alpha beta : F) (s : List Bool)
    (cols : List (List F)) (hcols : ∀ col ∈ cols, col.length = s.length) :
    foldColumns alpha beta (countTrue s) (cols.map (fun c => maskFilter c s)) =
      maskFilter (foldColumns alpha beta s.length cols) s := by
  induction s generalizing cols with
  | nil =>
    simp [countTrue, foldColumns, maskFilter_nil_right]
  | cons b bs ih =>
    have hlen : ∀ col ∈ cols, col.length = bs.length + 1 := by
      intro col hc; simpa using hcols col hc
    have hmap : cols.map (fun c => maskFilter c (b :: bs)) =
        cols.map (fun c =>
          if b then c.headD 0 :: maskFilter c.tail bs else maskFilter c.tail bs) := by
      apply List.map_congr_left
      intro col hc
      exact maskFilter_eq_of_length_succ col bs.length b bs (hlen col hc)
    have htails : ∀ col ∈ cols.map List.tail, col.length = bs.length := by
      intro col hc
      obtain ⟨c, hcmem, rfl⟩ := List.mem_map.mp hc
      have := hlen c hcmem
      simp [List.length_tail, this]
    have hfold : foldColumns alpha beta (b :: bs).length cols =
        (alpha * foldVals beta (cols.map (fun c => c.headD 0))) ::
          foldColumns alpha beta bs.length (cols.map List.tail) := rfl
    cases b with
    | false =>
      have hcount : countTrue (false :: bs) = countTrue bs := by
        simp [countTrue, List.countP_cons]
      have hrw : cols.map (fun c => maskFilter c.tail bs) =
          (cols.map List.tail).map (fun c => maskFilter c bs) := by
        rw [List.map_map]; rfl
      rw [hmap, hfold]
      simp only [if_false, Bool.false_eq_true, hcount]
      rw [hrw, ih (cols.map List.tail) htails]
      simp [maskFilter]
    | true =>
      have hcount : countTrue (true :: bs) = countTrue bs + 1 := by
        simp [countTrue, List.countP_cons]
      rw [hmap, hfold]
      simp only [if_true, hcount]
      simp only [maskFilter, if_true]
      simp only [foldColumns]
      congr 1
      · rw [List.map_map]
        rfl
      · have hrw : (cols.map (fun c => c.headD 0 :: maskFilter c.tail bs)).map
            List.tail = (cols.map List.tail).map (fun c => maskFilter c bs) := by
          rw [List.map_map, List.map_map]; rfl
        rw [hrw, ih (cols.map List.tail) htails]

theorem batchInversion_addConst (c : F) (xs : List F) :
    batchInversion (addConst c xs) = xs.map (fun x => pseudoInv (x + c)) := by
  simp [batchInversion, addConst, List.map_map]

theorem sum_range_getD (xs : List F) (N : Nat) (h : xs.length ≤ N) :
    ∑ i ∈ Finset.range N, xs.getD i 0 = xs.sum := by
  induction xs generalizing N with
  | nil => simp [List.getD]
  | cons x xs ih =>
    cases N with
    | zero => simp at h
    | succ M =>
      simp only [List.length_cons, Nat.succ_le_succ_iff] at h
      rw [Finset.sum_range_succ']
      simp only [List.getD_cons_succ, List.getD_cons_zero, List.sum_cons]
      rw [ih M h]
      ring

theorem getD_zipWith_mul (xs ys : List F) (h : xs.length = ys.length) (i : Nat) :
    (List.zipWith (· * ·) xs ys).getD i 0 = xs.getD i 0 * ys.getD i 0 := by
  induction xs generalizing ys i with
  | nil =>
    cases ys with
    | nil => simp [List.getD]
    | cons y ys => simp at h
  | cons x xs ih =>
    cases ys with
    | nil => simp at h
    | cons y ys =>
      simp only [List.length_cons, Nat.succ.injEq] at h
      cases i with
      | zero => simp
      | succ i => simpa using ih ys h i

theorem zipWith_mul_boolToF_sum (xs : List F) (s : List Bool)
    (h : xs.length = s.length) :
    (List.zipWith (· * ·) xs (s.map boolToF)).sum = (maskFilter xs s).sum := by
  induction xs generalizing s with
  | nil =>
    cases s with
    | nil => rfl
    | cons b bs => simp at h
  | cons x xs ih =>
    cases s with
    | nil => simp at h
    | cons b bs =>
      simp only [List.length_cons, Nat.succ.injEq] at h
      cases b with
      | false => simp [maskFilter, boolToF, ih bs h]
      | true => simp [maskFilter, boolToF, ih bs h]

/-- The `c_star + c_fold * c_star - chi_n` style identity holds at every row
when every denominator `fold[i] + 1` is nonzero. -/
theorem star_identityHolds (fold : List F) (n : Nat) (hlen : fold.length = n)
    (hnz : ∀ i < n, fold.getD i 0 + 1 ≠ 0) :
    identityHolds
      [((1 : F), [batchInversion (addConst 1 fold)]),
       (1, [batchInversion (addConst 1 fold), fold]),
       (-1, [List.replicate n (1 : F)])] := by
  intro i
  rw [batchInversion_addConst]
  simp only [subpolyAt, termProdAt, List.map_cons, List.map_nil, List.prod_cons,
    List.prod_nil, List.sum_cons, List.sum_nil]
  by_cases hi : i < n
  · rw [getD_map_of_lt _ _ _ (hlen ▸ hi) _ 0, getD_replicate_one n i hi]
    have hz := hnz i hi
    have hp : pseudoInv (fold.getD i 0 + 1) = (fold.getD i 0 + 1)⁻¹ :=
      if_neg hz
    rw [hp]
    have hc := inv_mul_cancel₀ hz
    linear_combination hc
  · push_neg at hi
    rw [getD_of_le _ _ (by simpa [hlen]) _, getD_of_le _ _ (by simpa [hlen]) _,
      getD_of_le _ _ (by simpa) _]
    ring

/-- The `d_fold * chi_m - d_fold` identity holds at every row. -/
theorem chi_identityHolds (fold : List F) (m : Nat) (hlen : fold.length = m) :
    identityHolds
      [((1 : F), [fold, List.replicate m (1 : F)]), (-1, [fold])] := by
  intro i
  simp only [subpolyAt, termProdAt, List.map_cons, List.map_nil, List.prod_cons,
    List.prod_nil, List.sum_cons, List.sum_nil]
  by_cases hi : i < m
  · rw [getD_replicate_one m i hi]
    ring
  · push_neg at hi
    rw [getD_of_le _ _ (by simpa [hlen]) _]
    ring

/-- The star column of the filtered fold is the filtered star column of the
input fold. -/
theorem dStar_eq_maskFilter (alpha beta : F) (s : List Bool)
    (cols : List (List F)) (hcols : ∀ col ∈ cols, col.length = s.length) :
    batchInversion (addConst 1
        (foldColumns alpha beta (countTrue s) (cols.map (fun c => maskFilter c s)))) =
      maskFilter (batchInversion (addConst 1 (foldColumns alpha beta s.length cols))) s := by
  rw [batchInversion_addConst, batchInversion_addConst,
    foldColumns_maskFilter alpha beta s cols hcols, maskFilter_map]

/-- The filter ZeroSum constraint holds: the selected entries of `c_star`
sum to the entries of the filtered star column. -/
theorem filter_zeroSumHolds (cStar : List F) (s : List Bool)
    (h : cStar.length = s.length) (N : Nat) (hN : s.length ≤ N) :
    zeroSumHolds
      [((1 : F), [cStar, s.map boolToF]), (-1, [maskFilter cStar s])] N := by
  unfold zeroSumHolds
  have hterm : ∀ i, subpolyAt
      [((1 : F), [cStar, s.map boolToF]), (-1, [maskFilter cStar s])] i =
      (List.zipWith (· * ·) cStar (s.map boolToF)).getD i 0 -
        (maskFilter cStar s).getD i 0 := by
    intro i
    simp only [subpolyAt, termProdAt, List.map_cons, List.map_nil, List.prod_cons,
      List.prod_nil, List.sum_cons, List.sum_nil]
    rw [getD_zipWith_mul _ _ (by simpa using h) i]
    ring
  rw [Finset.sum_congr rfl (fun i _ => hterm i), Finset.sum_sub_distrib,
    sum_range_getD _ _ (le_trans (by simp [List.length_zipWith, h]) hN),
    sum_range_getD _ _ (le_trans (le_trans (maskFilter_length _ _ h).le
      (countTrue_le_length s)) hN),
    zipWith_mul_boolToF_sum _ _ h]
  ring

end ScalarLemmas

section FinalRound

variable {F : Type} [Field F] [DecidableEq F]

/-- The final-round builder: accumulates, in call order, the intermediate
MLE columns produced as witnesses and the sumcheck subpolynomial constraints,
and holds the queue of drawn post-result challenges
(`FinalRoundBuilder` in the source). -/
structure FinalRoundBuilder (F : Type) where
  mles : List (List F)
  subpolys : List (SumcheckSubpolynomialType × List (F × List (List F)))
  postResultChallenges : List F
deriving DecidableEq

/-- `FinalRoundBuilder::produce_intermediate_mle`. -/
def FinalRoundBuilder.produceIntermediateMle (b : FinalRoundBuilder F)
    (col : List F) : FinalRoundBuilder F :=
  { b with mles := b.mles ++ [col] }

/-- `FinalRoundBuilder::produce_sumcheck_subpolynomial`. -/
def FinalRoundBuilder.produceSumcheckSubpolynomial (b : FinalRoundBuilder F)
    (ty : SumcheckSubpolynomialType) (terms : List (F × List (List F))) :
    FinalRoundBuilder F :=
  { b with subpolys := b.subpolys ++ [(ty, terms)] }

/-- `FinalRoundBuilder::consume_post_result_challenge` (pops the next drawn
challenge; modelled with default `0` on an empty queue). -/
def FinalRoundBuilder.consumePostResultChallenge (b : FinalRoundBuilder F) :
    F × FinalRoundBuilder F :=
  (b.postResultChallenges.headD 0, { b with postResultChallenges := b.postResultChallenges.tail })

/-- Shallow embedding of `prove_filter` (filter_exec.rs lines 330-406):
builds `chi_n`, `chi_m`, the two folds, the two star (batch-inverted)
columns, commits the stars as intermediate MLEs, and emits the four
sumcheck subpolynomials in source order. -/
def proveFilter (b : FinalRoundBuilder F) (alpha beta : F)
    (c : List (List F)) (s : List Bool) (d : List (List F)) (n m : Nat) :
    FinalRoundBuilder F :=
  let chiN : List F := List.replicate n 1
  let chiM : List F := List.replicate m 1
  let cFold := foldColumns alpha beta n c
  let dFold := foldColumns alpha beta m d
  let cStar := batchInversion (addConst 1 cFold)
  let dStar := batchInversion (addConst 1 dFold)
  let b1 := b.produceIntermediateMle cStar
  let b2 := b1.produceIntermediateMle dStar
  let b3 := b2.produceSumcheckSubpolynomial .ZeroSum
    [(1, [cStar, s.map boolToF]), (-1, [dStar])]
  let b4 := b3.produceSumcheckSubpolynomial .Identity
    [(1, [cStar]), (1, [cStar, cFold]), (-1, [chiN])]
  let b5 := b4.produceSumcheckSubpolynomial .Identity
    [(1, [dStar]), (1, [dStar, dFold]), (-1, [chiM])]
  let b6 := b5.produceSumcheckSubpolynomial .Identity
    [(1, [dFold, chiM]), (-1, [dFold])]
  b6

end FinalRound

section FilterHelpers

variable {F : Type} [Field F] [DecidableEq F]

/-- Modelled from the spec: `filter_util::filter_columns` keeps, in each
column, exactly the rows selected by the predicate, in order. -/
def filterColumns (c : List (List F)) (s : List Bool) : List (List F) :=
  c.map (fun col => maskFilter col s)

/-- The star column of `prove_filter`: the batch pseudo-inverse of
`1 + fold`. -/
def starColumn (alpha beta : F) (n : Nat) (cols : List (List F)) : List F :=
  batchInversion (addConst 1 (foldColumns alpha beta n cols))

theorem starColumn_length (alpha beta : F) (n : Nat) (cols : List (List F)) :
    (starColumn alpha beta n cols).length = n := by
  simp [starColumn, batchInversion, addConst, foldColumns_length]

end FilterHelpers

section ClaimC1

variable {F : Type} [Field F] [DecidableEq F]

/-- C1: for the filter plan's final round, `prove_filter` emits exactly four
sumcheck subpolynomials, in order: (1) a `ZeroSum` constraint
`c_star * selection - d_star`, (2) an `Identity` constraint
`c_star + c_fold * c_star - chi_n`, (3) an `Identity` constraint
`d_star + d_fold * d_star - chi_m`, (4) an `Identity` constraint
`d_fold * chi_m - d_fold` (i.e. `d_fold * (chi_m - 1)`); and whenever every
`1 + c_fold[i]` and every `1 + d_fold[j]` is nonzero, the honest witnesses
`c_star = batchInversion (1 + c_fold)` and `d_star = batchInversion (1 + d_fold)`
make all four constraints hold: the `ZeroSum` sums to zero over any domain
covering the `n` rows, and the three `Identity` constraints vanish at every
row. -/
theorem prove_filter_four_constraints (b : FinalRoundBuilder F) (alpha beta : F)
    (c : List (List F)) (s : List Bool) (n : Nat)
    (hc : ∀ col ∈ c, col.length = n) (hs : s.length = n)
    (hcz : ∀ i < n, 1 + (foldColumns alpha beta n c).getD i 0 ≠ 0)
    (hdz : ∀ j < countTrue s,
      1 + (foldColumns alpha beta (countTrue s) (filterColumns c s)).getD j 0 ≠ 0) :
    (proveFilter b alpha beta c s (filterColumns c s) n (countTrue s)).subpolys =
      b.subpolys ++
        [(.ZeroSum,
           [((1 : F), [starColumn alpha beta n c, s.map boolToF]),
            (-1, [starColumn alpha beta (countTrue s) (filterColumns c s)])]),
         (.Identity,
           [((1 : F), [starColumn alpha beta n c]),
            (1, [starColumn alpha beta n c, foldColumns alpha beta n c]),
            (-1, [List.replicate n (1 : F)])]),
         (.Identity,
           [((1 : F), [starColumn alpha beta (countTrue s) (filterColumns c s)]),
            (1, [starColumn alpha beta (countTrue s) (filterColumns c s),
                 foldColumns alpha beta (countTrue s) (filterColumns c s)]),
            (-1, [List.replicate (countTrue s) (1 : F)])]),
         (.Identity,
           [((1 : F), [foldColumns alpha beta (countTrue s) (filterColumns c s),
                       List.replicate (countTrue s) (1 : F)]),
            (-1, [foldColumns alpha beta (countTrue s) (filterColumns c s)])])] ∧
    (∀ N, n ≤ N → zeroSumHolds
      [((1 : F), [starColumn alpha beta n c, s.map boolToF]),
       (-1, [starColumn alpha beta (countTrue s) (filterColumns c s)])] N) ∧
    identityHolds
      [((1 : F), [starColumn alpha beta n c]),
       (1, [starColumn alpha beta n c, foldColumns alpha beta n c]),
       (-1, [List.replicate n (1 : F)])] ∧
    identityHolds
      [((1 : F), [starColumn alpha beta (countTrue s) (filterColumns c s)]),
       (1, [starColumn alpha beta (countTrue s) (filterColumns c s),
            foldColumns alpha beta (countTrue s) (filterColumns c s)]),
       (-1, [List.replicate (countTrue s) (1 : F)])] ∧
    identityHolds
      [((1 : F), [foldColumns alpha beta (countTrue s) (filterColumns c s),
                  List.replicate (countTrue s) (1 : F)]),
       (-1, [foldColumns alpha beta (countTrue s) (filterColumns c s)])] := by
  subst hs
  have hcz' : ∀ i < s.length,
      (foldColumns alpha beta s.length c).getD i 0 + 1 ≠ 0 := by
    intro i hi
    have := hcz i hi
    intro hcon
    exact this (by linear_combination hcon)
  have hdz' : ∀ j < countTrue s,
      (foldColumns alpha beta (countTrue s) (filterColumns c s)).getD j 0 + 1 ≠ 0 := by
    intro j hj
    have := hdz j hj
    intro hcon
    exact this (by linear_combination hcon)
  have hdstar : starColumn alpha beta (countTrue s) (filterColumns c s) =
      maskFilter (starColumn alpha beta s.length c) s :=
    dStar_eq_maskFilter alpha beta s c hc
  refine ⟨?_, ?_, ?_, ?_, ?_⟩
  · simp [proveFilter, FinalRoundBuilder.produceIntermediateMle,
      FinalRoundBuilder.produceSumcheckSubpolynomial, starColumn,
      List.append_assoc]
  · intro N hN
    rw [hdstar]
    exact filter_zeroSumHolds (starColumn alpha beta s.length c) s
      (starColumn_length alpha beta s.length c) N hN
  · exact star_identityHolds _ s.length (foldColumns_length _ _ _ _) hcz'
  · exact star_identityHolds _ (countTrue s) (foldColumns_length _ _ _ _) hdz'
  · exact chi_identityHolds _ (countTrue s) (foldColumns_length _ _ _ _)

/-- Witness for C1 at a concrete input over `ZMod 5`:
two input columns of two rows, selection `[true, false]`. -/
theorem prove_filter_four_constraints_witness :
    ((∀ col ∈ [[(1 : ZMod 5), 2], [3, 4]], col.length = 2) ∧
     ([true, false] : List Bool).length = 2 ∧
     (∀ i < 2, (1 : ZMod 5) +
       (foldColumns (1 : ZMod 5) 2 2 [[1, 2], [3, 4]]).getD i 0 ≠ 0) ∧
     (∀ j < countTrue [true, false], (1 : ZMod 5) +
       (foldColumns (1 : ZMod 5) 2 (countTrue [true, false])
         (filterColumns [[1, 2], [3, 4]] [true, false])).getD j 0 ≠ 0)) ∧
    identityHolds
      [((1 : ZMod 5), [starColumn 1 2 2 [[1, 2], [3, 4]],
                       foldColumns 1 2 2 [[1, 2], [3, 4]]]),
       (1, [starColumn 1 2 2 [[1, 2], [3, 4]]]),
       (-1, [List.replicate 2 (1 : ZMod 5)])] ∨
    identityHolds
      [((1 : ZMod 5), [starColumn 1 2 2 [[1, 2], [3, 4]]]),
       (1, [starColumn 1 2 2 [[1, 2], [3, 4]], foldColumns 1 2 2 [[1, 2], [3, 4]]]),
       (-1, [List.replicate 2 (1 : ZMod 5)])] := by
  refine Or.inr ?_
  exact (prove_filter_four_constraints ⟨[], [], []⟩ 1 2 [[1, 2], [3, 4]]
    [true, false] 2 (by decide) (by decide) (by decide) (by decide)).2.2.1

end ClaimC1

section Verification

variable {F : Type} [Field F] [DecidableEq F]

/-- Protocol errors surfaced during verification (`ProofError` in the
source, restricted to the variants these functions produce). -/
inductive ProofError where
  | VerificationError (msg : String)
deriving DecidableEq

/-- The verification builder: queues of prover-supplied items to be consumed
in emission order, plus the accumulated subpolynomial evaluations
(`VerificationBuilder` in the source). -/
structure VerificationBuilder (F : Type) where
  finalRoundMles : List F
  postResultChallenges : List F
  chiEvaluations : List F
  produced : List (SumcheckSubpolynomialType × F × Nat)
deriving DecidableEq

/-- `VerificationBuilder::try_consume_final_round_mle_evaluation`. -/
def VerificationBuilder.tryConsumeFinalRoundMleEvaluation
    (b : VerificationBuilder F) : Except ProofError (F × VerificationBuilder F) :=
  match b.finalRoundMles with
  | [] => .error (.VerificationError "final round mle evaluation not found")
  | x :: rest => .ok (x, { b with finalRoundMles := rest })

/-- `VerificationBuilder::try_consume_final_round_mle_evaluations`. -/
def VerificationBuilder.tryConsumeFinalRoundMleEvaluations
    (b : VerificationBuilder F) (n : Nat) :
    Except ProofError (List F × VerificationBuilder F) :=
  if n ≤ b.finalRoundMles.length then
    .ok (b.finalRoundMles.take n, { b with finalRoundMles := b.finalRoundMles.drop n })
  else .error (.VerificationError "final round mle evaluation not found")

/-- `VerificationBuilder::try_consume_post_result_challenge`. -/
def VerificationBuilder.tryConsumePostResultChallenge
    (b : VerificationBuilder F) : Except ProofError (F × VerificationBuilder F) :=
  match b.postResultChallenges with
  | [] => .error (.VerificationError "post result challenge not found")
  | x :: rest => .ok (x, { b with postResultChallenges := rest })

/-- `VerificationBuilder::try_consume_chi_evaluation`. -/
def VerificationBuilder.tryConsumeChiEvaluation
    (b : VerificationBuilder F) : Except ProofError (F × VerificationBuilder F) :=
  match b.chiEvaluations with
  | [] => .error (.VerificationError "chi evaluation not found")
  | x :: rest => .ok (x, { b with chiEvaluations := rest })

/-- `VerificationBuilder::try_produce_sumcheck_subpolynomial_evaluation`:
accumulates the evaluation into the running record. (The source's failure
modes concern constraint-count bookkeeping that lives outside the provided
tree; within this embedding the call always succeeds.) -/
def VerificationBuilder.tryProduceSumcheckSubpolynomialEvaluation
    (b : VerificationBuilder F) (ty : SumcheckSubpolynomialType) (eval : F)
    (degree : Nat) : Except ProofError (VerificationBuilder F) :=
  .ok { b with produced := b.produced ++ [(ty, eval, degree)] }

/-- Shallow embedding of `verify_filter` (filter_exec.rs lines 283-327):
recomputes the two fold evaluations, consumes the two star evaluations in
order, and produces the four subpolynomial evaluations in source order. -/
def verifyFilter (b : VerificationBuilder F) (alpha beta chiNEval chiMEval : F)
    (cEvals : List F) (sEval : F) (dEvals : List F) :
    Except ProofError (VerificationBuilder F) := do
  let cFoldEval := alpha * foldVals beta cEvals
  let dFoldEval := alpha * foldVals beta dEvals
  let (cStarEval, b1) ← b.tryConsumeFinalRoundMleEvaluation
  let (dStarEval, b2) ← b1.tryConsumeFinalRoundMleEvaluation
  let b3 ← b2.tryProduceSumcheckSubpolynomialEvaluation .ZeroSum
    (cStarEval * sEval - dStarEval) 2
  let b4 ← b3.tryProduceSumcheckSubpolynomialEvaluation .Identity
    (cStarEval + cFoldEval * cStarEval - chiNEval) 2
  let b5 ← b4.tryProduceSumcheckSubpolynomialEvaluation .Identity
    (dStarEval + dFoldEval * dStarEval - chiMEval) 2
  let b6 ← b5.tryProduceSumcheckSubpolynomialEvaluation .Identity
    (dFoldEval * (chiMEval - 1)) 2
  pure b6

end Verification

section ClaimC2

variable {F : Type} [Field F] [DecidableEq F]

/-- C2: `verify_filter` recomputes `c_fold_eval = alpha * fold_vals(beta,
c_evals)` and `d_fold_eval = alpha * fold_vals(beta, d_evals)`, consumes
exactly two further MLE evaluations (`c_star_eval` then `d_star_eval` — the
order `prove_filter` produced its two star MLEs), and produces exactly four
subpolynomial evaluations `ZeroSum c_star*s - d_star`, `Identity
c_star + c_fold*c_star - chi_n`, `Identity d_star + d_fold*d_star - chi_m`,
`Identity d_fold*(chi_m - 1)`, whose types and order match the four
constraints of `prove_filter`. -/
theorem verify_filter_mirrors_prove_filter (b : VerificationBuilder F)
    (alpha beta chiNEval chiMEval sEval : F) (cEvals dEvals : List F)
    (e1 e2 : F) (rest : List F) (hq : b.finalRoundMles = e1 :: e2 :: rest) :
    verifyFilter b alpha beta chiNEval chiMEval cEvals sEval dEvals =
      .ok { b with
              finalRoundMles := rest,
              produced := b.produced ++
                [(.ZeroSum, e1 * sEval - e2, 2),
                 (.Identity,
                  e1 + alpha * foldVals beta cEvals * e1 - chiNEval, 2),
                 (.Identity,
                  e2 + alpha * foldVals beta dEvals * e2 - chiMEval, 2),
                 (.Identity, alpha * foldVals beta dEvals * (chiMEval - 1), 2)] } ∧
    (∀ (fb : FinalRoundBuilder F) (c : List (List F)) (s : List Bool)
        (d : List (List F)) (n m : Nat),
      ((proveFilter fb alpha beta c s d n m).subpolys.drop
          fb.subpolys.length).map Prod.fst =
        [.ZeroSum, .Identity, .Identity, .Identity] ∧
      (proveFilter fb alpha beta c s d n m).mles.drop fb.mles.length =
        [starColumn alpha beta n c, starColumn alpha beta m d]) := by
  obtain ⟨mles, prc, chis, prod⟩ := b
  simp only at hq
  subst hq
  constructor
  · simp [verifyFilter, VerificationBuilder.tryConsumeFinalRoundMleEvaluation,
      VerificationBuilder.tryProduceSumcheckSubpolynomialEvaluation,
      bind, Except.bind, pure, Except.pure]
  · intro fb c s d n m
    constructor
    · simp [proveFilter, FinalRoundBuilder.produceIntermediateMle,
        FinalRoundBuilder.produceSumcheckSubpolynomial]
    · simp [proveFilter, FinalRoundBuilder.produceIntermediateMle,
        FinalRoundBuilder.produceSumcheckSubpolynomial, starColumn]

/-- Witness for C2 at a concrete builder over `ZMod 5` whose MLE queue holds
the two star evaluations `3` and `4`. -/
theorem verify_filter_mirrors_prove_filter_witness :
    (VerificationBuilder.mk [(3 : ZMod 5), 4] [] [] []).finalRoundMles =
        (3 : ZMod 5) :: (4 : ZMod 5) :: [] ∧
    verifyFilter (VerificationBuilder.mk [(3 : ZMod 5), 4] [] [] []) 1 2 1 1
        [2] 1 [2] =
      .ok { VerificationBuilder.mk [(3 : ZMod 5), 4] [] [] [] with
              finalRoundMles := ([] : List (ZMod 5)),
              produced :=
                [(.ZeroSum, 3 * 1 - 4, 2),
                 (.Identity, 3 + 1 * foldVals 2 [2] * 3 - 1, 2),
                 (.Identity, 4 + 1 * foldVals 2 [2] * 4 - 1, 2),
                 (.Identity, 1 * foldVals 2 [2] * (1 - 1), 2)] } :=
  ⟨rfl,
    (verify_filter_mirrors_prove_filter
      (VerificationBuilder.mk [(3 : ZMod 5), 4] [] [] [])
      1 2 1 1 1 [2] [2] 3 4 [] rfl).1⟩

end ClaimC2

section EqualsZeroGadget

variable {F : Type} [Field F] [DecidableEq F]

/-- Shallow embedding of `first_round_evaluate_equals_zero`
(equals_expr.rs lines 135-142): fills a boolean column of `table_length`
rows with `lhs[i] == 0` (the source asserts `table_length = lhs.len()`). -/
def firstRoundEvaluateEqualsZero (tableLength : Nat) (lhs : List F) :
    List Bool :=
  (List.range tableLength).map (fun i => decide (lhs.getD i 0 = 0))

/-- Shallow embedding of `final_round_evaluate_equals_zero`
(equals_expr.rs lines 144-182): commits the batch pseudo-inverse and the
selection column as intermediate MLEs, then emits the two `Identity`
subpolynomials `selection * lhs` and `selection_not - lhs * lhs_pseudo_inv`,
returning the selection column. -/
def finalRoundEvaluateEqualsZero (tableLength : Nat) (b : FinalRoundBuilder F)
    (lhs : List F) : List Bool × FinalRoundBuilder F :=
  let lhsPseudoInv := batchInversion lhs
  let b1 := b.produceIntermediateMle lhsPseudoInv
  let selectionNot : List Bool :=
    (List.range tableLength).map (fun i => decide (lhs.getD i 0 ≠ 0))
  let selection : List Bool := selectionNot.map (fun x => !x)
  let b2 := b1.produceIntermediateMle (selection.map boolToF)
  let b3 := b2.produceSumcheckSubpolynomial .Identity
    [(1, [lhs, selection.map boolToF])]
  let b4 := b3.produceSumcheckSubpolynomial .Identity
    [(1, [selectionNot.map boolToF]), (-1, [lhs, lhsPseudoInv])]
  (selection, b4)

theorem rangeMap_getD_eq_map {β : Type} (f : F → β) (lhs : List F) :
    (List.range lhs.length).map (fun i => f (lhs.getD i 0)) = lhs.map f := by
  induction lhs with
  | nil => rfl
  | cons x xs ih =>
    rw [List.length_cons, List.range_succ_eq_map, List.map_cons, List.map_map,
      List.map_cons]
    refine congrArg₂ List.cons rfl ?_
    rw [← ih]
    apply List.map_congr_left
    intro a _
    rfl

end EqualsZeroGadget

section ClaimC3

variable {F : Type} [Field F] [DecidableEq F]

/-- C3: for every scalar column `lhs`, the first-round output of the
equals-to-zero gadget is the boolean column `selection[i] = (lhs[i] = 0)`;
the final round commits exactly the batch pseudo-inverse and the selection
column as intermediate MLEs (in that order) and emits exactly two
`Identity` subpolynomials — (a) `selection * lhs` and
(b) `selection_not - lhs * inv` where `selection_not` reads row-wise as
`1 - selection` — both of which vanish at every row for the honest
witness. -/
theorem equals_zero_gadget_correct (b : FinalRoundBuilder F) (lhs : List F) :
    firstRoundEvaluateEqualsZero lhs.length lhs =
      lhs.map (fun x => decide (x = 0)) ∧
    (finalRoundEvaluateEqualsZero lhs.length b lhs).1 =
      lhs.map (fun x => decide (x = 0)) ∧
    (finalRoundEvaluateEqualsZero lhs.length b lhs).2.mles =
      b.mles ++ [batchInversion lhs,
        (lhs.map (fun x => decide (x = 0))).map boolToF] ∧
    (finalRoundEvaluateEqualsZero lhs.length b lhs).2.subpolys =
      b.subpolys ++
        [(.Identity,
          [((1 : F), [lhs, (lhs.map (fun x => decide (x = 0))).map boolToF])]),
         (.Identity,
          [((1 : F), [(lhs.map (fun x => decide (x ≠ 0))).map boolToF]),
           (-1, [lhs, batchInversion lhs])])] ∧
    identityHolds
      [((1 : F), [lhs, (lhs.map (fun x => decide (x = 0))).map boolToF])] ∧
    identityHolds
      [((1 : F), [(lhs.map (fun x => decide (x ≠ 0))).map boolToF]),
       (-1, [lhs, batchInversion lhs])] ∧
    (∀ i < lhs.length,
      ((lhs.map (fun x => decide (x ≠ 0))).map boolToF).getD i 0 =
        1 - ((lhs.map (fun x => decide (x = 0))).map boolToF).getD i (0 : F)) := by
  have hfirst : firstRoundEvaluateEqualsZero lhs.length lhs =
      lhs.map (fun x => decide (x = 0)) := by
    unfold firstRoundEvaluateEqualsZero
    exact rangeMap_getD_eq_map (fun x => decide (x = 0)) lhs
  have hnotmap : (List.range lhs.length).map
      (fun i => decide (lhs.getD i 0 ≠ 0)) = lhs.map (fun x => decide (x ≠ 0)) :=
    rangeMap_getD_eq_map (fun x => decide (x ≠ 0)) lhs
  have hselmap : ((List.range lhs.length).map
      (fun i => decide (lhs.getD i 0 ≠ 0))).map (fun x => !x) =
      lhs.map (fun x => decide (x = 0)) := by
    rw [hnotmap, List.map_map]
    apply List.map_congr_left
    intro x _
    simp [Function.comp]
  refine ⟨hfirst, ?_, ?_, ?_, ?_, ?_, ?_⟩
  · simp only [finalRoundEvaluateEqualsZero]
    exact hselmap
  · simp only [finalRoundEvaluateEqualsZero,
      FinalRoundBuilder.produceIntermediateMle,
      FinalRoundBuilder.produceSumcheckSubpolynomial]
    rw [hselmap]
    simp [List.append_assoc]
  · simp only [finalRoundEvaluateEqualsZero,
      FinalRoundBuilder.produceIntermediateMle,
      FinalRoundBuilder.produceSumcheckSubpolynomial]
    rw [hselmap, hnotmap]
    simp [List.append_assoc]
  · intro i
    simp only [subpolyAt, termProdAt, List.map_cons, List.map_nil,
      List.prod_cons, List.prod_nil, List.sum_cons, List.sum_nil, List.map_map]
    by_cases hi : i < lhs.length
    · rw [getD_map_of_lt _ _ _ hi _ 0]
      by_cases hx : lhs.getD i 0 = 0
      · rw [hx]; ring
      · simp [Function.comp, boolToF, hx]
    · push_neg at hi
      rw [getD_of_le _ _ hi]
      ring
  · intro i
    simp only [subpolyAt, termProdAt, List.map_cons, List.map_nil,
      List.prod_cons, List.prod_nil, List.sum_cons, List.sum_nil, List.map_map,
      batchInversion]
    by_cases hi : i < lhs.length
    · rw [getD_map_of_lt _ _ _ hi _ 0, getD_map_of_lt _ _ _ hi _ 0]
      by_cases hx : lhs.getD i 0 = 0
      · rw [hx]
        simp [boolToF, pseudoInv]
      · have h1 : ((boolToF ∘ fun x => decide ¬(x = 0)) (lhs.getD i 0) : F) = 1 := by
          have hb : (decide (¬(lhs.getD i 0 = 0))) = true := decide_eq_true hx
          show boolToF (decide (¬(lhs.getD i 0 = 0))) = 1
          rw [hb]
          rfl
        rw [h1]
        simp only [pseudoInv]
        rw [if_neg hx]
        have h2 := mul_inv_cancel₀ hx
        linear_combination -h2
    · push_neg at hi
      have e1 : (List.map (boolToF ∘ fun x => decide (x ≠ 0)) lhs).getD i 0 = (0 : F) :=
        getD_of_le _ _ (by simpa using hi) _
      have e2 : lhs.getD i 0 = (0 : F) := getD_of_le _ _ hi _
      have e3 : (List.map pseudoInv lhs).getD i 0 = (0 : F) :=
        getD_of_le _ _ (by simpa using hi) _
      rw [e1, e2, e3]
      ring
  · intro i hi
    rw [List.map_map, List.map_map, getD_map_of_lt _ _ _ hi _ 0,
      getD_map_of_lt _ _ _ hi _ 0]
    show boolToF (decide (¬(lhs.getD i 0 = 0))) =
      1 - boolToF (decide (lhs.getD i 0 = 0))
    by_cases hx : lhs.getD i 0 = 0
    · have h1 : (decide (¬(lhs.getD i 0 = 0))) = false :=
        decide_eq_false (not_not_intro hx)
      have h2 : (decide (lhs.getD i 0 = 0)) = true := decide_eq_true hx
      rw [h1, h2]
      norm_num [boolToF]
    · have h1 : (decide (¬(lhs.getD i 0 = 0))) = true := decide_eq_true hx
      have h2 : (decide (lhs.getD i 0 = 0)) = false := decide_eq_false hx
      rw [h1, h2]
      norm_num [boolToF]

/-- Witness for C3 at the concrete column `[0, 2]` over `ZMod 5`. -/
theorem equals_zero_gadget_correct_witness :
    firstRoundEvaluateEqualsZero ([(0 : ZMod 5), 2].length) [(0 : ZMod 5), 2] =
      [(0 : ZMod 5), 2].map (fun x => decide (x = 0)) :=
  (equals_zero_gadget_correct (FinalRoundBuilder.mk [] [] [])
    [(0 : ZMod 5), 2]).1

end ClaimC3

section ExpressionLayer

variable {F : Type} [Field F] [DecidableEq F]

/-- Column data types (`ColumnType` in the source, restricted to the
variants these claims exercise). -/
inductive ColumnType where
  | boolean
  | bigInt
  | varchar
  | scalarType
deriving DecidableEq, Repr

/-- The display name used in `AnalyzeError::DataTypeMismatch` messages. -/
def ColumnType.typeName : ColumnType → String
  | .boolean => "boolean"
  | .bigInt => "bigint"
  | .varchar => "varchar"
  | .scalarType => "scalar"

/-- A typed column value (`Column` in the source, restricted to scalar and
boolean payloads, which is all the equals/filter protocol distinguishes). -/
inductive ColumnV (F : Type) where
  | scalarCol (vals : List F)
  | boolCol (vals : List Bool)
deriving DecidableEq

/-- The scalar (MLE) view of a column. -/
def ColumnV.toScalars : ColumnV F → List F
  | .scalarCol vs => vs
  | .boolCol vs => vs.map boolToF

/-- The row count of a column. -/
def ColumnV.lengthC : ColumnV F → Nat
  | .scalarCol vs => vs.length
  | .boolCol vs => vs.length

/-- `Column::as_boolean`. -/
def ColumnV.asBoolean : ColumnV F → Option (List Bool)
  | .boolCol vs => some vs
  | _ => none

/-- Row filtering of one typed column by a selection vector. -/
def ColumnV.maskFilterC : ColumnV F → List Bool → ColumnV F
  | .scalarCol vs, s => .scalarCol (maskFilter vs s)
  | .boolCol vs, s => .boolCol (maskFilter vs s)

/-- Modelled from the spec: `add_subtract_columns(lhs, rhs, alloc, true)`
subtracts the right column from the left, row-wise, in the scalar field. -/
def addSubtractColumns (lhs rhs : ColumnV F) : List F :=
  List.zipWith (fun a b => a - b) lhs.toScalars rhs.toScalars

/-- The provable expression AST (`DynProofExpr` in the source, restricted to
column references and the equals expression). A column reference records the
referenced column's declared data type. -/
inductive DynProofExpr (F : Type) where
  | columnRef (idx : Nat) (ty : ColumnType)
  | equalsExpr (lhs rhs : DynProofExpr F)
deriving DecidableEq

/-- `ProofExpr::data_type`: an equals expression is boolean. -/
def DynProofExpr.dataType : DynProofExpr F → ColumnType
  | .columnRef _ ty => ty
  | .equalsExpr _ _ => .boolean

/-- Well-formed column indices for a table with `numCols` columns. -/
def DynProofExpr.wfIdx (numCols : Nat) : DynProofExpr F → Bool
  | .columnRef i _ => i < numCols
  | .equalsExpr l r => l.wfIdx numCols && r.wfIdx numCols

/-- A table: its columns and its row count (`Table` in the source). -/
structure TableM (F : Type) where
  cols : List (ColumnV F)
  numRows : Nat
deriving DecidableEq

/-- `ProofExpr::first_round_evaluate`: pure plaintext evaluation. The equals
case mirrors `EqualsExpr::first_round_evaluate` (equals_expr.rs lines
57-78): evaluate both sides, subtract, then apply the first-round
equals-to-zero gadget over `table.num_rows()` rows. -/
def DynProofExpr.firstRoundEvaluate (table : TableM F) :
    DynProofExpr F → ColumnV F
  | .columnRef i _ => table.cols.getD i (.scalarCol [])
  | .equalsExpr l r =>
      .boolCol (firstRoundEvaluateEqualsZero table.numRows
        (addSubtractColumns (l.firstRoundEvaluate table)
          (r.firstRoundEvaluate table)))

/-- `ProofExpr::final_round_evaluate`: recomputes the plaintext result while
threading the final-round builder; the equals case mirrors
`EqualsExpr::final_round_evaluate` (equals_expr.rs lines 80-107). -/
def DynProofExpr.finalRoundEvaluate (table : TableM F) :
    DynProofExpr F → FinalRoundBuilder F → ColumnV F × FinalRoundBuilder F
  | .columnRef i _, b => (table.cols.getD i (.scalarCol []), b)
  | .equalsExpr l r, b =>
      let p1 := l.finalRoundEvaluate table b
      let p2 := r.finalRoundEvaluate table p1.2
      let p3 := finalRoundEvaluateEqualsZero table.numRows p2.2
        (addSubtractColumns p1.1 p2.1)
      (.boolCol p3.1, p3.2)

/-- The first-round builder: accumulates requested post-result-challenge
counts and declared chi-evaluation lengths (`FirstRoundBuilder` in the
source). -/
structure FirstRoundBuilder where
  postResultChallengesRequested : Nat
  chiEvaluationLengths : List Nat
deriving DecidableEq

/-- `FirstRoundBuilder::request_post_result_challenges`. -/
def FirstRoundBuilder.requestPostResultChallenges (b : FirstRoundBuilder)
    (count : Nat) : FirstRoundBuilder :=
  { b with postResultChallengesRequested := b.postResultChallengesRequested + count }

/-- `FirstRoundBuilder::produce_chi_evaluation_length`. -/
def FirstRoundBuilder.produceChiEvaluationLength (b : FirstRoundBuilder)
    (len : Nat) : FirstRoundBuilder :=
  { b with chiEvaluationLengths := b.chiEvaluationLengths ++ [len] }

/-- Outcome of a prover-side pass that can abort (`expect`/`assert` in the
source aborts the process; `ok` carries the ordinary return value). -/
inductive PanicOr (α : Type) where
  | panicked (msg : String)
  | ok (val : α)
deriving DecidableEq

/-- The filter plan: result expressions, source table reference, and the
where clause (`OstensibleFilterExec` in the source; aliases are elided). -/
structure FilterExecM (F : Type) where
  tableRef : Nat
  results : List (DynProofExpr F)
  whereClause : DynProofExpr F
deriving DecidableEq

/-- Shallow embedding of `FilterExec::first_round_evaluate` (filter_exec.rs
lines 166-212): look up the table (`expect` on absence), evaluate the where
clause (`expect` a boolean column), count the selected rows, evaluate and
filter the result columns, build the output table with the output length,
request two post-result challenges and declare the output length as a
chi-evaluation length. -/
def FilterExec.firstRoundEvaluate (plan : FilterExecM F)
    (builder : FirstRoundBuilder) (tableMap : List (Nat × TableM F)) :
    PanicOr (TableM F × FirstRoundBuilder) :=
  match tableMap.lookup plan.tableRef with
  | none => .panicked "Table not found"
  | some table =>
    match (plan.whereClause.firstRoundEvaluate table).asBoolean with
    | none => .panicked "selection is not boolean"
    | some selection =>
      let outputLength := countTrue selection
      let columns := plan.results.map (fun e => e.firstRoundEvaluate table)
      let filtered := columns.map (fun c => c.maskFilterC selection)
      if filtered.all (fun c => c.lengthC == outputLength) then
        .ok ({ cols := filtered, numRows := outputLength },
          (builder.requestPostResultChallenges 2).produceChiEvaluationLength
            outputLength)
      else .panicked "Failed to create table from iterator"

/-- Shallow embedding of `FilterExec::final_round_evaluate` (filter_exec.rs
lines 214-279): same plaintext computation, threading the final-round
builder through the where clause and the result expressions, committing the
filtered columns as intermediate MLEs, consuming `alpha` and `beta`, and
running `prove_filter`. -/
def FilterExec.finalRoundEvaluate (plan : FilterExecM F)
    (builder : FinalRoundBuilder F) (tableMap : List (Nat × TableM F)) :
    PanicOr (TableM F × FinalRoundBuilder F) :=
  match tableMap.lookup plan.tableRef with
  | none => .panicked "Table not found"
  | some table =>
    let p0 := plan.whereClause.finalRoundEvaluate table builder
    match p0.1.asBoolean with
    | none => .panicked "selection is not boolean"
    | some selection =>
      let outputLength := countTrue selection
      let pcols := plan.results.foldl
        (fun acc e =>
          let p := e.finalRoundEvaluate table acc.2
          (acc.1 ++ [p.1], p.2))
        (([] : List (ColumnV F)), p0.2)
      let columns := pcols.1
      let filtered := columns.map (fun c => c.maskFilterC selection)
      let b1 := filtered.foldl
        (fun bb c => bb.produceIntermediateMle c.toScalars) pcols.2
      let a1 := b1.consumePostResultChallenge
      let a2 := a1.2.consumePostResultChallenge
      let b2 := proveFilter a2.2 a1.1 a2.1 (columns.map ColumnV.toScalars)
        selection (filtered.map ColumnV.toScalars) table.numRows
        (countTrue selection)
      if filtered.all (fun c => c.lengthC == outputLength) then
        .ok ({ cols := filtered, numRows := outputLength }, b2)
      else .panicked "Failed to create table from iterator"

/-- The output table of a prover pass, when it did not abort. -/
def tablePart {β : Type} : PanicOr (TableM F × β) → Option (TableM F)
  | .panicked _ => none
  | .ok p => some p.1

end ExpressionLayer

section ClaimC5

variable {F : Type} [Field F] [DecidableEq F]

/-- The selection returned by the final-round equals-to-zero gadget is
exactly the first-round boolean column. -/
theorem finalRound_equalsZero_fst (n : Nat) (b : FinalRoundBuilder F)
    (lhs : List F) :
    (finalRoundEvaluateEqualsZero n b lhs).1 = firstRoundEvaluateEqualsZero n lhs := by
  simp only [finalRoundEvaluateEqualsZero, firstRoundEvaluateEqualsZero,
    List.map_map]
  apply List.map_congr_left
  intro i _
  simp [Function.comp, decide_not]

/-- Expression-level round agreement: the final round returns the same
column as the first round, for every builder. -/
theorem expr_rounds_agree (table : TableM F) (e : DynProofExpr F)
    (b : FinalRoundBuilder F) :
    (e.finalRoundEvaluate table b).1 = e.firstRoundEvaluate table := by
  induction e generalizing b with
  | columnRef i ty => rfl
  | equalsExpr l r ihl ihr =>
    simp only [DynProofExpr.finalRoundEvaluate, DynProofExpr.firstRoundEvaluate]
    rw [finalRound_equalsZero_fst, ihl, ihr]

/-- The column accumulator of the final-round fold equals the first-round
column list. -/
theorem finalRound_foldl_columns (table : TableM F) (es : List (DynProofExpr F))
    (acc : List (ColumnV F)) (b : FinalRoundBuilder F) :
    (es.foldl
        (fun acc e =>
          let p := e.finalRoundEvaluate table acc.2
          (acc.1 ++ [p.1], p.2))
        (acc, b)).1 =
      acc ++ es.map (fun e => e.firstRoundEvaluate table) := by
  induction es generalizing acc b with
  | nil => simp
  | cons e es ih =>
    simp only [List.foldl_cons, List.map_cons]
    rw [ih, expr_rounds_agree]
    simp

/-- C5: for every table map and builders, `EqualsExpr::final_round_evaluate`
returns the same boolean column as `EqualsExpr::first_round_evaluate` (and
likewise for every expression node), and `FilterExec::final_round_evaluate`
returns the same filtered output table (same columns, rows, order and row
count) as `FilterExec::first_round_evaluate` — including agreement on
whether the pass aborts. -/
theorem final_round_returns_first_round_result (table : TableM F)
    (e : DynProofExpr F) (b : FinalRoundBuilder F) (plan : FilterExecM F)
    (fb : FirstRoundBuilder) (fb' : FinalRoundBuilder F)
    (tableMap : List (Nat × TableM F)) :
    (e.finalRoundEvaluate table b).1 = e.firstRoundEvaluate table ∧
    tablePart (FilterExec.finalRoundEvaluate plan fb' tableMap) =
      tablePart (FilterExec.firstRoundEvaluate plan fb tableMap) := by
  refine ⟨expr_rounds_agree table e b, ?_⟩
  unfold FilterExec.finalRoundEvaluate FilterExec.firstRoundEvaluate
  cases htm : tableMap.lookup plan.tableRef with
  | none => rfl
  | some t =>
    simp only []
    rw [expr_rounds_agree]
    cases hsel : (plan.whereClause.firstRoundEvaluate t).asBoolean with
    | none => rfl
    | some selection =>
      simp only []
      rw [finalRound_foldl_columns]
      simp only [List.nil_append]
      by_cases hall : ((plan.results.map
          (fun e => e.firstRoundEvaluate t)).map
            (fun c => c.maskFilterC selection)).all
          (fun c => c.lengthC == countTrue selection)
      · rw [if_pos hall, if_pos hall]
        rfl
      · rw [if_neg hall, if_neg hall]
        rfl

end ClaimC5

section ClaimC4

variable {F : Type} [Field F] [DecidableEq F]

theorem ColumnV.lengthC_maskFilterC (c : ColumnV F) (s : List Bool)
    (h : c.lengthC = s.length) : (c.maskFilterC s).lengthC = countTrue s := by
  cases c with
  | scalarCol vs =>
    simp only [ColumnV.maskFilterC, ColumnV.lengthC] at h ⊢
    exact maskFilter_length vs s h
  | boolCol vs =>
    simp only [ColumnV.maskFilterC, ColumnV.lengthC] at h ⊢
    exact maskFilter_length vs s h

/-- Every well-formed expression evaluates to a column of the table's row
count. -/
theorem firstRound_lengthC (table : TableM F)
    (hwf : ∀ col ∈ table.cols, col.lengthC = table.numRows) :
    ∀ e : DynProofExpr F, e.wfIdx table.cols.length = true →
      (e.firstRoundEvaluate table).lengthC = table.numRows := by
  intro e
  induction e with
  | columnRef i ty =>
    intro he
    simp only [DynProofExpr.wfIdx, decide_eq_true_eq] at he
    simp only [DynProofExpr.firstRoundEvaluate]
    apply hwf
    rw [List.getD_eq_getElem?_getD, List.getElem?_eq_getElem he]
    exact List.getElem_mem he
  | equalsExpr l r ihl ihr =>
    intro _
    simp [DynProofExpr.firstRoundEvaluate, ColumnV.lengthC,
      firstRoundEvaluateEqualsZero]

/-- C4: when the referenced table is present, well-formed, and the where
clause's first round evaluates to a boolean column `selection`, the filter
plan's first round returns the filtered table with exactly
`m = countTrue selection` rows (`m ≤ n`), declares exactly `m` as a new
chi-evaluation length, and requests exactly two post-result challenges. -/
theorem filter_first_round_shape (plan : FilterExecM F)
    (builder : FirstRoundBuilder) (tableMap : List (Nat × TableM F))
    (table : TableM F) (selection : List Bool)
    (htm : tableMap.lookup plan.tableRef = some table)
    (hwf : ∀ col ∈ table.cols, col.lengthC = table.numRows)
    (hres : ∀ e ∈ plan.results, e.wfIdx table.cols.length = true)
    (hwc : plan.whereClause.wfIdx table.cols.length = true)
    (hsel : plan.whereClause.firstRoundEvaluate table = .boolCol selection) :
    FilterExec.firstRoundEvaluate plan builder tableMap =
      .ok ({ cols := (plan.results.map (fun e => e.firstRoundEvaluate table)).map
               (fun c => c.maskFilterC selection),
             numRows := countTrue selection },
           { postResultChallengesRequested :=
               builder.postResultChallengesRequested + 2,
             chiEvaluationLengths :=
               builder.chiEvaluationLengths ++ [countTrue selection] }) ∧
    countTrue selection ≤ table.numRows ∧
    (∀ col ∈ (plan.results.map (fun e => e.firstRoundEvaluate table)).map
        (fun c => c.maskFilterC selection),
      col.lengthC = countTrue selection) := by
  have hsellen : selection.length = table.numRows := by
    have h := firstRound_lengthC table hwf plan.whereClause hwc
    rw [hsel] at h
    simpa [ColumnV.lengthC] using h
  have hcollen : ∀ col ∈ (plan.results.map
      (fun e => e.firstRoundEvaluate table)).map
        (fun c => c.maskFilterC selection),
      col.lengthC = countTrue selection := by
    intro col hcol
    rw [List.map_map] at hcol
    obtain ⟨e, he, rfl⟩ := List.mem_map.mp hcol
    apply ColumnV.lengthC_maskFilterC
    rw [firstRound_lengthC table hwf e (hres e he), hsellen]
  refine ⟨?_, ?_, hcollen⟩
  · unfold FilterExec.firstRoundEvaluate
    rw [htm]
    simp only [hsel, ColumnV.asBoolean]
    have hcond : ((plan.results.map (fun e => e.firstRoundEvaluate table)).map
        (fun c => c.maskFilterC selection)).all
          (fun c => c.lengthC == countTrue selection) = true := by
      rw [List.all_eq_true]
      intro c hc
      exact beq_iff_eq.mpr (hcollen c hc)
    rw [if_pos hcond]
    rfl
  · calc countTrue selection ≤ selection.length := countTrue_le_length selection
      _ = table.numRows := hsellen

/-- Witness for C4 at a concrete one-column boolean table over `ZMod 5`. -/
theorem filter_first_round_shape_witness :
    (List.lookup 0 [(0, TableM.mk (F := ZMod 5)
        [ColumnV.boolCol [true, false]] 2)] =
      some (TableM.mk (F := ZMod 5) [ColumnV.boolCol [true, false]] 2)) ∧
    countTrue [true, false] ≤
      (TableM.mk (F := ZMod 5) [ColumnV.boolCol [true, false]] 2).numRows :=
  ⟨rfl,
    (filter_first_round_shape
      (FilterExecM.mk 0 [DynProofExpr.columnRef 0 .boolean]
        (DynProofExpr.columnRef 0 .boolean))
      (FirstRoundBuilder.mk 0 [])
      [(0, TableM.mk (F := ZMod 5) [ColumnV.boolCol [true, false]] 2)]
      (TableM.mk (F := ZMod 5) [ColumnV.boolCol [true, false]] 2)
      [true, false] rfl (by decide) (by decide) (by decide) rfl).2.1⟩

end ClaimC4

section VerifierLayer

variable {F : Type} [Field F] [DecidableEq F]

/-- Shallow embedding of `verifier_evaluate_equals_zero` (equals_expr.rs
lines 184-209): consumes the pseudo-inverse and selection evaluations, and
produces the two `Identity` subpolynomial evaluations. -/
def verifierEvaluateEqualsZero (b : VerificationBuilder F)
    (lhsEval chiEval : F) : Except ProofError (F × VerificationBuilder F) := do
  let (lhsPseudoInvEval, b1) ← b.tryConsumeFinalRoundMleEvaluation
  let (selectionEval, b2) ← b1.tryConsumeFinalRoundMleEvaluation
  let selectionNotEval := chiEval - selectionEval
  let b3 ← b2.tryProduceSumcheckSubpolynomialEvaluation .Identity
    (selectionEval * lhsEval) 2
  let b4 ← b3.tryProduceSumcheckSubpolynomialEvaluation .Identity
    (selectionNotEval - lhsEval * lhsPseudoInvEval) 2
  pure (selectionEval, b4)

/-- `ProofExpr::verifier_evaluate`: a column reference reads the claimed
evaluation from the accessor (a typed error when absent), and the equals
case mirrors `EqualsExpr::verifier_evaluate` (equals_expr.rs lines
109-123). -/
def DynProofExpr.verifierEvaluate (accessor : List F) (chiEval : F) :
    DynProofExpr F → VerificationBuilder F →
      Except ProofError (F × VerificationBuilder F)
  | .columnRef i _, b =>
      match accessor[i]? with
      | some v => .ok (v, b)
      | none => .error (.VerificationError "column evaluation not found")
  | .equalsExpr l r, b =>
      match l.verifierEvaluate accessor chiEval b with
      | .error e => .error e
      | .ok (le, b1) =>
        match r.verifierEvaluate accessor chiEval b1 with
        | .error e => .error e
        | .ok (re, b2) => verifierEvaluateEqualsZero b2 (le - re) chiEval

/-- Sequential verifier evaluation of the result expressions. -/
def verifierEvaluateResults (accessor : List F) (chiEval : F) :
    List (DynProofExpr F) → VerificationBuilder F →
      Except ProofError (List F × VerificationBuilder F)
  | [], b => .ok ([], b)
  | e :: es, b =>
      match e.verifierEvaluate accessor chiEval b with
      | .error err => .error err
      | .ok (v, b1) =>
        match verifierEvaluateResults accessor chiEval es b1 with
        | .error err => .error err
        | .ok (vs, b2) => .ok (v :: vs, b2)

/-- Outcome of the plan verifier: a process abort (`expect` in the source),
a typed verification error, or success with the filtered column evaluations
and the output chi evaluation. -/
inductive VerifierOutcome (F : Type) where
  | panicked (msg : String)
  | failed (e : ProofError)
  | ok (evals : List F) (chiEval : F) (b : VerificationBuilder F)
deriving DecidableEq

/-- Shallow embedding of `OstensibleFilterExec::verifier_evaluate`
(filter_exec.rs lines 79-133): the chi evaluation of the referenced table is
looked up with `expect` (a panic when absent), the accessor entry is
defaulted to an empty map when absent, then the where clause, the result
columns, the filtered-column MLE evaluations, `alpha`, `beta`, the output
chi evaluation, and `verify_filter` are processed in order. -/
def OstensibleFilterExec.verifierEvaluate (plan : FilterExecM F)
    (b : VerificationBuilder F) (accessor : List (Nat × List F))
    (chiEvalMap : List (Nat × F)) : VerifierOutcome F :=
  match chiEvalMap.lookup plan.tableRef with
  | none => .panicked "Chi eval not found"
  | some inputChiEval =>
    let acc := (accessor.lookup plan.tableRef).getD []
    match plan.whereClause.verifierEvaluate acc inputChiEval b with
    | .error e => .failed e
    | .ok (selectionEval, b1) =>
      match verifierEvaluateResults acc inputChiEval plan.results b1 with
      | .error e => .failed e
      | .ok (columnsEvals, b2) =>
        match b2.tryConsumeFinalRoundMleEvaluations plan.results.length with
        | .error e => .failed e
        | .ok (filteredEvals, b3) =>
          match b3.tryConsumePostResultChallenge with
          | .error e => .failed e
          | .ok (alpha, b4) =>
            match b4.tryConsumePostResultChallenge with
            | .error e => .failed e
            | .ok (beta, b5) =>
              match b5.tryConsumeChiEvaluation with
              | .error e => .failed e
              | .ok (outputChiEval, b6) =>
                match verifyFilter b6 alpha beta inputChiEval outputChiEval
                    columnsEvals selectionEval filteredEvals with
                | .error e => .failed e
                | .ok b7 => .ok filteredEvals outputChiEval b7

/-- Analysis errors surfaced during expression construction
(`AnalyzeError` in the source, restricted to the variant `try_new`
produces). -/
inductive AnalyzeError where
  | DataTypeMismatch (leftType rightType : String)
deriving DecidableEq

/-- Modelled from the spec: `try_equals_types` accepts operand data types
that are equality-comparable and rejects a "type mismatch between
operands". -/
def tryEqualsTypes (l r : ColumnType) : Bool := l == r

/-- Shallow embedding of `EqualsExpr::try_new` (equals_expr.rs lines
30-39): checks the operand data types and either constructs the equals
expression or returns `AnalyzeError::DataTypeMismatch` carrying the two
type names. -/
def EqualsExpr.tryNew (lhs rhs : DynProofExpr F) :
    Except AnalyzeError (DynProofExpr F) :=
  if tryEqualsTypes lhs.dataType rhs.dataType then
    .ok (.equalsExpr lhs rhs)
  else
    .error (.DataTypeMismatch lhs.dataType.typeName rhs.dataType.typeName)

end VerifierLayer

section ClaimC10

variable {F : Type} [Field F] [DecidableEq F]

/-- C10 counterexample: the filter verifier does NOT report an absent table
reference as a typed error — on a chi-evaluation map without the plan's
table it aborts through `expect("Chi eval not found")`, and the prover's
first round likewise aborts through `expect("Table not found")` on an
absent table map entry. -/
theorem filter_missing_table_panics_counterexample :
    OstensibleFilterExec.verifierEvaluate (F := ZMod 5)
        (FilterExecM.mk 0 [] (DynProofExpr.columnRef 0 .boolean))
        (VerificationBuilder.mk [] [] [] []) [] [] =
      .panicked "Chi eval not found" ∧
    FilterExec.firstRoundEvaluate (F := ZMod 5)
        (FilterExecM.mk 0 [] (DynProofExpr.columnRef 0 .boolean))
        (FirstRoundBuilder.mk 0 []) [] =
      .panicked "Table not found" := ⟨rfl, rfl⟩

/-- C10 as amended: `EqualsExpr::try_new` reports non-equality-comparable
operand types as a typed `AnalyzeError::DataTypeMismatch` and constructs no
expression; but a filter plan whose table reference is absent from the
verifier's chi-evaluation map (resp. the prover's table map) makes the
verifier (resp. prover) panic through `expect` rather than return a typed
error. -/
theorem analysis_error_typed_but_missing_table_panics
    (lhs rhs : DynProofExpr F)
    (hty : tryEqualsTypes lhs.dataType rhs.dataType = false)
    (plan : FilterExecM F) (b : VerificationBuilder F)
    (accessor : List (Nat × List F)) (chiEvalMap : List (Nat × F))
    (hchi : chiEvalMap.lookup plan.tableRef = none)
    (fb : FirstRoundBuilder) (tableMap : List (Nat × TableM F))
    (htm : tableMap.lookup plan.tableRef = none) :
    EqualsExpr.tryNew lhs rhs =
      .error (.DataTypeMismatch lhs.dataType.typeName rhs.dataType.typeName) ∧
    OstensibleFilterExec.verifierEvaluate plan b accessor chiEvalMap =
      .panicked "Chi eval not found" ∧
    FilterExec.firstRoundEvaluate plan fb tableMap =
      .panicked "Table not found" := by
  refine ⟨?_, ?_, ?_⟩
  · unfold EqualsExpr.tryNew
    rw [hty]
    rfl
  · unfold OstensibleFilterExec.verifierEvaluate
    rw [hchi]
  · unfold FilterExec.firstRoundEvaluate
    rw [htm]

/-- Witness for the amended C10 at concrete mismatched types and an empty
chi-evaluation/table map. -/
theorem analysis_error_typed_witness :
    tryEqualsTypes (DynProofExpr.columnRef (F := ZMod 5) 0 .boolean).dataType
        (DynProofExpr.columnRef (F := ZMod 5) 0 .bigInt).dataType = false ∧
    EqualsExpr.tryNew (DynProofExpr.columnRef (F := ZMod 5) 0 .boolean)
        (DynProofExpr.columnRef (F := ZMod 5) 0 .bigInt) =
      .error (.DataTypeMismatch "boolean" "bigint") :=
  ⟨by decide,
    (analysis_error_typed_but_missing_table_panics
      (DynProofExpr.columnRef (F := ZMod 5) 0 .boolean)
      (DynProofExpr.columnRef (F := ZMod 5) 0 .bigInt) (by decide)
      (FilterExecM.mk 0 [] (DynProofExpr.columnRef 0 .boolean))
      (VerificationBuilder.mk [] [] [] []) [] [] rfl
      (FirstRoundBuilder.mk 0 []) [] rfl).1⟩

end ClaimC10

section ClaimC6

variable {F : Type} [Field F] [DecidableEq F]
variable {G : Type} [AddCommMonoid G] [Module F G]

/-- Shallow embedding of `compute_commitment_generic_impl` (commitment.rs
lines 117-130): the sum over the column of each scalar times the setup
generator at its offset position (the source asserts
`offset + scalars.len() <= setup.len()`). The commitment group `G` models
`G1Projective`, with `•` the scalar multiplication of `Mul` and `+` the
group addition of `AddAssign`. -/
def computeCommitmentGenericImpl (setup : List G) (offset : Nat)
    (scalars : List F) : G :=
  (List.zipWith (fun t s => t • s) scalars (setup.drop offset)).sum

theorem zipWith_smul_add_sum (f g : List F) (rest : List G)
    (hlen : f.length = g.length) :
    (List.zipWith (fun t s => t • s) f rest).sum +
      (List.zipWith (fun t s => t • s) g rest).sum =
      (List.zipWith (fun t s => t • s) (List.zipWith (· + ·) f g) rest).sum := by
  induction f generalizing g rest with
  | nil =>
    cases g with
    | nil => simp
    | cons y ys => simp at hlen
  | cons x xs ih =>
    cases g with
    | nil => simp at hlen
    | cons y ys =>
      cases rest with
      | nil => simp
      | cons r rs =>
        simp only [List.length_cons, Nat.succ.injEq] at hlen
        simp only [List.zipWith_cons_cons, List.sum_cons]
        rw [← ih ys rs hlen, add_smul]
        abel

theorem zipWith_smul_mul_sum (s : F) (f : List F) (rest : List G) :
    s • (List.zipWith (fun t g => t • g) f rest).sum =
      (List.zipWith (fun t g => t • g) (f.map (fun x => s * x)) rest).sum := by
  induction f generalizing rest with
  | nil => simp
  | cons x xs ih =>
    cases rest with
    | nil => simp
    | cons r rs =>
      simp only [List.map_cons, List.zipWith_cons_cons, List.sum_cons, smul_add]
      rw [ih rs, mul_smul]

/-- C6: the CPU HyperKZG commitment computation is a module homomorphism
over the scalar field: for equal-length columns `f`, `g` and a setup large
enough for them, `commit(f) + commit(g) = commit(f + g)` (elementwise column
sum), and `s • commit(f) = commit(s * f)` for every scalar `s`. -/
theorem compute_commitment_homomorphism (setup : List G) (offset : Nat)
    (f g : List F) (s : F) (hlen : f.length = g.length)
    (hsetup : offset + f.length ≤ setup.length) :
    computeCommitmentGenericImpl setup offset f +
        computeCommitmentGenericImpl setup offset g =
      computeCommitmentGenericImpl setup offset (List.zipWith (· + ·) f g) ∧
    s • computeCommitmentGenericImpl setup offset f =
      computeCommitmentGenericImpl setup offset (f.map (fun x => s * x)) := by
  constructor
  · exact zipWith_smul_add_sum f g (setup.drop offset) hlen
  · exact zipWith_smul_mul_sum s f (setup.drop offset)

/-- Witness for C6 over `ZMod 5` as a module over itself. -/
theorem compute_commitment_homomorphism_witness :
    (([(1 : ZMod 5), 2] : List (ZMod 5)).length = ([3, 4] : List (ZMod 5)).length ∧
      0 + ([(1 : ZMod 5), 2] : List (ZMod 5)).length ≤
        ([1, 1, 1] : List (ZMod 5)).length) ∧
    computeCommitmentGenericImpl ([1, 1, 1] : List (ZMod 5)) 0 [(1 : ZMod 5), 2] +
        computeCommitmentGenericImpl ([1, 1, 1] : List (ZMod 5)) 0 [(3 : ZMod 5), 4] =
      computeCommitmentGenericImpl ([1, 1, 1] : List (ZMod 5)) 0
        (List.zipWith (· + ·) [(1 : ZMod 5), 2] [(3 : ZMod 5), 4]) :=
  ⟨⟨by decide, by decide⟩,
    (compute_commitment_homomorphism ([1, 1, 1] : List (ZMod 5)) 0
      [(1 : ZMod 5), 2] [(3 : ZMod 5), 4] 2 (by decide) (by decide)).1⟩

end ClaimC6

section ColumnCommitments

/-- Column identifiers (`Identifier` in the source). -/
abbrev Identifier := String

variable {C M Col : Type} [DecidableEq C] [DecidableEq M] [Add C] [Sub C]
variable (commitF : Col → Nat → C) (metaOf : Col → M)

/-- `DuplicateIdentifiers` error, carrying the offending identifier. -/
inductive DuplicateIdentifiersE where
  | dup (name : String)
deriving DecidableEq

/-- `ColumnCommitmentsMismatch` error variants
(`NumColumns`, `Identifier`, `ColumnCommitmentMetadata`). -/
inductive ColumnCommitmentsMismatch where
  | numColumns
  | identifierMismatch
  | metadataMismatch
deriving DecidableEq

/-- `AppendColumnCommitmentsError`. -/
inductive AppendColumnCommitmentsError where
  | mismatch (e : ColumnCommitmentsMismatch)
  | duplicateIdentifiers (e : DuplicateIdentifiersE)
deriving DecidableEq

/-- Commitments and per-column metadata for a collection of columns
(`ColumnCommitments` in the source: a commitment vector parallel to an
identifier-keyed metadata map). -/
structure ColumnCommitmentsM (C M : Type) where
  commitments : List C
  columnMetadata : List (Identifier × M)
deriving DecidableEq

/-- The duplicate scan of `try_from_columns_with_offset` /
`try_append_rows_with_offset` (column_commitments.rs lines 81-92 and
131-142): walk the identifiers, tracking the ones seen, and fail on the
first repeat. -/
def findDuplicate : List Identifier → List Identifier → Option Identifier
  | _, [] => none
  | seen, x :: xs => if x ∈ seen then some x else findDuplicate (x :: seen) xs

/-- Shallow embedding of `ColumnCommitments::try_from_columns_with_offset`
(column_commitments.rs lines 74-114): reject duplicate identifiers, then
commit each column at the offset and record its metadata. -/
def tryFromColumnsWithOffset (cols : List (Identifier × Col)) (offset : Nat) :
    Except DuplicateIdentifiersE (ColumnCommitmentsM C M) :=
  match findDuplicate [] (cols.map Prod.fst) with
  | some ident => .error (.dup ident)
  | none =>
      .ok { commitments := cols.map (fun p => commitF p.2 offset),
            columnMetadata := cols.map (fun p => (p.1, metaOf p.2)) }

/-- Modelled from the spec: `ColumnCommitmentMetadataMap::try_union`
"requires identical identifier sets and identical per-column metadata (type
and bounds), else fails" — column-count mismatch, identifier mismatch and
per-column metadata mismatch map to the three
`ColumnCommitmentsMismatch` variants. -/
def tryUnionMeta (a b : List (Identifier × M)) :
    Except ColumnCommitmentsMismatch (List (Identifier × M)) :=
  if a.length = b.length then
    if a.map Prod.fst = b.map Prod.fst then
      if a = b then .ok a else .error .metadataMismatch
    else .error .identifierMismatch
  else .error .numColumns

/-- Modelled from the spec: `ColumnCommitmentMetadataMap::try_difference`
has the same acceptance condition as `try_union` (identical identifier sets
and identical per-column metadata). -/
def tryDifferenceMeta (a b : List (Identifier × M)) :
    Except ColumnCommitmentsMismatch (List (Identifier × M)) :=
  if a.length = b.length then
    if a.map Prod.fst = b.map Prod.fst then
      if a = b then .ok a else .error .metadataMismatch
    else .error .identifierMismatch
  else .error .numColumns

/-- Shallow embedding of `ColumnCommitments::try_add` (column_commitments.rs
lines 208-222): union the metadata (fails on any mismatch), then add the
commitment vectors entrywise (the source `expect`s equal lengths, which the
metadata check guarantees under the parallel-vector invariant). -/
def ColumnCommitmentsM.tryAdd (a b : ColumnCommitmentsM C M) :
    Except ColumnCommitmentsMismatch (ColumnCommitmentsM C M) :=
  match tryUnionMeta a.columnMetadata b.columnMetadata with
  | .error e => .error e
  | .ok meta =>
      .ok { commitments := List.zipWith (· + ·) a.commitments b.commitments,
            columnMetadata := meta }

/-- Shallow embedding of `ColumnCommitments::try_sub` (column_commitments.rs
lines 228-242). -/
def ColumnCommitmentsM.trySub (a b : ColumnCommitmentsM C M) :
    Except ColumnCommitmentsMismatch (ColumnCommitmentsM C M) :=
  match tryDifferenceMeta a.columnMetadata b.columnMetadata with
  | .error e => .error e
  | .ok meta =>
      .ok { commitments := List.zipWith (· - ·) a.commitments b.commitments,
            columnMetadata := meta }

/-- Shallow embedding of `ColumnCommitments::try_extend_columns_with_offset`
(column_commitments.rs lines 167-202): reject identifiers colliding with the
existing columns, construct commitments for the new columns (which rejects
duplicates among them), and append. -/
def ColumnCommitmentsM.tryExtendColumnsWithOffset
    (cc : ColumnCommitmentsM C M) (cols : List (Identifier × Col))
    (offset : Nat) :
    Except DuplicateIdentifiersE (ColumnCommitmentsM C M) :=
  match (cols.map Prod.fst).find?
      (fun i => decide (i ∈ cc.columnMetadata.map Prod.fst)) with
  | some ident => .error (.dup ident)
  | none =>
      match tryFromColumnsWithOffset commitF metaOf cols offset with
      | .error e => .error e
      | .ok newCc =>
          .ok { commitments := cc.commitments ++ newCc.commitments,
                columnMetadata := cc.columnMetadata ++ newCc.columnMetadata }

/-- Shallow embedding of `ColumnCommitments::try_append_rows_with_offset`
(column_commitments.rs lines 123-164): reject duplicate identifiers among
the appended columns, union the metadata with the existing map (fails on
any mismatch), and fold the new row commitments into the commitment
vector. -/
def ColumnCommitmentsM.tryAppendRowsWithOffset
    (cc : ColumnCommitmentsM C M) (cols : List (Identifier × Col))
    (offset : Nat) :
    Except AppendColumnCommitmentsError (ColumnCommitmentsM C M) :=
  match findDuplicate [] (cols.map Prod.fst) with
  | some ident => .error (.duplicateIdentifiers (.dup ident))
  | none =>
      match tryUnionMeta cc.columnMetadata
          (cols.map (fun p => (p.1, metaOf p.2))) with
      | .error e => .error (.mismatch e)
      | .ok meta =>
          .ok { commitments := List.zipWith (· + ·) cc.commitments
                  (cols.map (fun p => commitF p.2 offset)),
                columnMetadata := meta }

/-- The `ColumnCommitments` representation invariant: pairwise-distinct
identifiers and one commitment per metadata entry. -/
def ccInvariant (cc : ColumnCommitmentsM C M) : Prop :=
  (cc.columnMetadata.map Prod.fst).Nodup ∧
    cc.commitments.length = cc.columnMetadata.length

theorem findDuplicate_eq_none_iff (seen ids : List Identifier) :
    findDuplicate seen ids = none ↔ ids.Nodup ∧ ∀ x ∈ ids, x ∉ seen := by
  induction ids generalizing seen with
  | nil => simp [findDuplicate]
  | cons x xs ih =>
    simp only [findDuplicate]
    by_cases hx : x ∈ seen
    · rw [if_pos hx]
      simp only [reduceCtorEq, false_iff, not_and]
      intro _ hmem
      exact absurd hx (hmem x (List.mem_cons_self x xs))
    · rw [if_neg hx, ih (x :: seen)]
      constructor
      · rintro ⟨hnd, hmem⟩
        have hxnotxs : x ∉ xs := fun hxin =>
          (hmem x hxin) (List.mem_cons_self x seen)
        refine ⟨List.nodup_cons.mpr ⟨hxnotxs, hnd⟩, ?_⟩
        intro y hy
        rcases List.mem_cons.mp hy with rfl | hyxs
        · exact hx
        · exact fun hys => (hmem y hyxs) (List.mem_cons.mpr (Or.inr hys))
      · rintro ⟨hnd, hmem⟩
        have hc := List.nodup_cons.mp hnd
        refine ⟨hc.2, ?_⟩
        intro y hy hymem
        rcases List.mem_cons.mp hymem with rfl | hys
        · exact hc.1 hy
        · exact (hmem y (List.mem_cons.mpr (Or.inr hy))) hys

theorem tryUnionMeta_ok_imp {M : Type} [DecidableEq M]
    (a b r : List (Identifier × M)) (h : tryUnionMeta a b = .ok r) :
    a = b ∧ r = a := by
  unfold tryUnionMeta at h
  by_cases h1 : a.length = b.length
  · rw [if_pos h1] at h
    by_cases h2 : a.map Prod.fst = b.map Prod.fst
    · rw [if_pos h2] at h
      by_cases h3 : a = b
      · rw [if_pos h3] at h
        exact ⟨h3, (Except.ok.inj h).symm⟩
      · rw [if_neg h3] at h
        exact absurd h (by simp)
    · rw [if_neg h2] at h
      exact absurd h (by simp)
  · rw [if_neg h1] at h
    exact absurd h (by simp)

theorem tryUnionMeta_error_of_ne {M : Type} [DecidableEq M]
    (a b : List (Identifier × M)) (hne : a ≠ b) :
    ∃ e, tryUnionMeta a b = .error e := by
  unfold tryUnionMeta
  by_cases h1 : a.length = b.length
  · by_cases h2 : a.map Prod.fst = b.map Prod.fst
    · exact ⟨.metadataMismatch, by rw [if_pos h1, if_pos h2, if_neg hne]⟩
    · exact ⟨.identifierMismatch, by rw [if_pos h1, if_neg h2]⟩
  · exact ⟨.numColumns, by rw [if_neg h1]⟩

theorem tryDifferenceMeta_ok_imp {M : Type} [DecidableEq M]
    (a b r : List (Identifier × M)) (h : tryDifferenceMeta a b = .ok r) :
    a = b ∧ r = a := by
  unfold tryDifferenceMeta at h
  by_cases h1 : a.length = b.length
  · rw [if_pos h1] at h
    by_cases h2 : a.map Prod.fst = b.map Prod.fst
    · rw [if_pos h2] at h
      by_cases h3 : a = b
      · rw [if_pos h3] at h
        exact ⟨h3, (Except.ok.inj h).symm⟩
      · rw [if_neg h3] at h
        exact absurd h (by simp)
    · rw [if_neg h2] at h
      exact absurd h (by simp)
  · rw [if_neg h1] at h
    exact absurd h (by simp)

theorem tryDifferenceMeta_error_of_ne {M : Type} [DecidableEq M]
    (a b : List (Identifier × M)) (hne : a ≠ b) :
    ∃ e, tryDifferenceMeta a b = .error e := by
  unfold tryDifferenceMeta
  by_cases h1 : a.length = b.length
  · by_cases h2 : a.map Prod.fst = b.map Prod.fst
    · exact ⟨.metadataMismatch, by rw [if_pos h1, if_pos h2, if_neg hne]⟩
    · exact ⟨.identifierMismatch, by rw [if_pos h1, if_neg h2]⟩
  · exact ⟨.numColumns, by rw [if_neg h1]⟩

end ColumnCommitments

section ClaimC7

variable {C M : Type} [DecidableEq C] [DecidableEq M] [Add C] [Sub C]

/-- C7: `try_add` and `try_sub` succeed only when the two
`ColumnCommitments` have identical identifier sequences and identical
per-column metadata; whenever the metadata maps differ in any way
(identifier sets, column counts, or the metadata of a shared identifier),
both operations return a `ColumnCommitmentsMismatch` error and produce no
combined commitment. -/
theorem try_add_sub_requires_identical_metadata
    (a b : ColumnCommitmentsM C M) :
    (∀ r, a.tryAdd b = .ok r →
      a.columnMetadata = b.columnMetadata ∧
        r.columnMetadata = a.columnMetadata) ∧
    (∀ r, a.trySub b = .ok r →
      a.columnMetadata = b.columnMetadata ∧
        r.columnMetadata = a.columnMetadata) ∧
    (a.columnMetadata ≠ b.columnMetadata →
      (∃ e, a.tryAdd b = .error e) ∧ (∃ e, a.trySub b = .error e)) := by
  refine ⟨?_, ?_, ?_⟩
  · intro r hr
    unfold ColumnCommitmentsM.tryAdd at hr
    cases hu : tryUnionMeta a.columnMetadata b.columnMetadata with
    | error e => rw [hu] at hr; exact absurd hr (by simp)
    | ok meta =>
      rw [hu] at hr
      obtain ⟨hab, hma⟩ := tryUnionMeta_ok_imp _ _ _ hu
      refine ⟨hab, ?_⟩
      have hrw : r =
          ⟨List.zipWith (· + ·) a.commitments b.commitments, meta⟩ :=
        (Except.ok.inj hr).symm
      rw [hrw, hma]
  · intro r hr
    unfold ColumnCommitmentsM.trySub at hr
    cases hu : tryDifferenceMeta a.columnMetadata b.columnMetadata with
    | error e => rw [hu] at hr; exact absurd hr (by simp)
    | ok meta =>
      rw [hu] at hr
      obtain ⟨hab, hma⟩ := tryDifferenceMeta_ok_imp _ _ _ hu
      refine ⟨hab, ?_⟩
      have hrw : r =
          ⟨List.zipWith (· - ·) a.commitments b.commitments, meta⟩ :=
        (Except.ok.inj hr).symm
      rw [hrw, hma]
  · intro hne
    obtain ⟨e1, he1⟩ := tryUnionMeta_error_of_ne _ _ hne
    obtain ⟨e2, he2⟩ := tryDifferenceMeta_error_of_ne _ _ hne
    exact ⟨⟨e1, by unfold ColumnCommitmentsM.tryAdd; rw [he1]⟩,
           ⟨e2, by unfold ColumnCommitmentsM.trySub; rw [he2]⟩⟩

/-- Witness for C7 at two concrete single-column commitments with the same
identifier but different metadata. -/
theorem try_add_sub_requires_identical_metadata_witness :
    ((ColumnCommitmentsM.mk (C := ZMod 5) (M := Nat) [1]
        [("a", 0)]).columnMetadata ≠
      (ColumnCommitmentsM.mk (C := ZMod 5) (M := Nat) [2]
        [("a", 1)]).columnMetadata) ∧
    ∃ e, (ColumnCommitmentsM.mk (C := ZMod 5) (M := Nat) [1]
        [("a", 0)]).tryAdd
      (ColumnCommitmentsM.mk (C := ZMod 5) (M := Nat) [2] [("a", 1)]) =
        .error e :=
  ⟨by decide,
    ((try_add_sub_requires_identical_metadata
      (ColumnCommitmentsM.mk (C := ZMod 5) (M := Nat) [1] [("a", 0)])
      (ColumnCommitmentsM.mk (C := ZMod 5) (M := Nat) [2]
        [("a", 1)])).2.2 (by decide)).1⟩

end ClaimC7

section ClaimC8

variable {C M Col : Type} [DecidableEq C] [DecidableEq M] [Add C] [Sub C]
variable (commitF : Col → Nat → C) (metaOf : Col → M)

theorem tryFrom_error_of_dup (cols : List (Identifier × Col)) (offset : Nat)
    (hnd : ¬ (cols.map Prod.fst).Nodup) :
    ∃ e, tryFromColumnsWithOffset commitF metaOf cols offset = .error e := by
  cases hfd : findDuplicate [] (cols.map Prod.fst) with
  | none =>
    exact absurd ((findDuplicate_eq_none_iff [] _).mp hfd).1 hnd
  | some i =>
    exact ⟨.dup i, by unfold tryFromColumnsWithOffset; rw [hfd]⟩

theorem tryFrom_ok_invariant (cols : List (Identifier × Col)) (offset : Nat)
    (r : ColumnCommitmentsM C M)
    (hr : tryFromColumnsWithOffset commitF metaOf cols offset = .ok r) :
    ccInvariant r ∧ r.columnMetadata.map Prod.fst = cols.map Prod.fst := by
  unfold tryFromColumnsWithOffset at hr
  cases hfd : findDuplicate [] (cols.map Prod.fst) with
  | some i => rw [hfd] at hr; exact absurd hr (by simp)
  | none =>
    rw [hfd] at hr
    have hrw : r = ⟨cols.map (fun p => commitF p.2 offset),
        cols.map (fun p => (p.1, metaOf p.2))⟩ :=
      (Except.ok.inj hr).symm
    have hids : (cols.map (fun p => (p.1, metaOf p.2))).map Prod.fst =
        cols.map Prod.fst := by
      rw [List.map_map]
      rfl
    have hnd := ((findDuplicate_eq_none_iff [] _).mp hfd).1
    constructor
    · constructor
      · rw [hrw]
        simpa [hids] using hnd
      · rw [hrw]
        simp
    · rw [hrw]
      simp [hids]

/-- C8: the no-duplicate-identifier invariant. `try_from_columns_with_offset`
errors whenever the input repeats an identifier, and any success satisfies
the invariant; `try_extend_columns_with_offset` errors whenever a new
identifier collides with an existing one or the new identifiers repeat, and
any success (from an invariant-satisfying receiver) satisfies the
invariant; `try_append_rows_with_offset` errors with
`DuplicateIdentifiers` whenever the appended columns repeat an identifier,
and any success preserves the invariant. -/
theorem column_commitments_no_duplicate_identifiers
    (cols : List (Identifier × Col)) (offset : Nat)
    (cc : ColumnCommitmentsM C M) (hinv : ccInvariant cc) :
    (¬ (cols.map Prod.fst).Nodup →
      ∃ e, tryFromColumnsWithOffset commitF metaOf cols offset = .error e) ∧
    (∀ r, tryFromColumnsWithOffset commitF metaOf cols offset = .ok r →
      ccInvariant r) ∧
    ((¬ (cols.map Prod.fst).Nodup ∨
        ∃ i ∈ cols.map Prod.fst, i ∈ cc.columnMetadata.map Prod.fst) →
      ∃ e, cc.tryExtendColumnsWithOffset commitF metaOf cols offset =
        .error e) ∧
    (∀ r, cc.tryExtendColumnsWithOffset commitF metaOf cols offset = .ok r →
      ccInvariant r) ∧
    (¬ (cols.map Prod.fst).Nodup →
      ∃ e, cc.tryAppendRowsWithOffset commitF metaOf cols offset =
        .error (.duplicateIdentifiers e)) ∧
    (∀ r, cc.tryAppendRowsWithOffset commitF metaOf cols offset = .ok r →
      ccInvariant r) := by
  refine ⟨tryFrom_error_of_dup commitF metaOf cols offset, ?_, ?_, ?_, ?_, ?_⟩
  · intro r hr
    exact (tryFrom_ok_invariant commitF metaOf cols offset r hr).1
  · rintro (hnd | ⟨i, hi, hmem⟩)
    · cases hfind : (cols.map Prod.fst).find?
          (fun i => decide (i ∈ cc.columnMetadata.map Prod.fst)) with
      | some ident =>
        exact ⟨.dup ident, by
          unfold ColumnCommitmentsM.tryExtendColumnsWithOffset
          rw [hfind]⟩
      | none =>
        obtain ⟨e, he⟩ := tryFrom_error_of_dup commitF metaOf cols offset hnd
        exact ⟨e, by
          unfold ColumnCommitmentsM.tryExtendColumnsWithOffset
          rw [hfind, he]⟩
    · cases hfind : (cols.map Prod.fst).find?
          (fun i => decide (i ∈ cc.columnMetadata.map Prod.fst)) with
      | some ident =>
        exact ⟨.dup ident, by
          unfold ColumnCommitmentsM.tryExtendColumnsWithOffset
          rw [hfind]⟩
      | none =>
        have := List.find?_eq_none.mp hfind i hi
        simp only [decide_eq_true_eq] at this
        exact absurd hmem this
  · intro r hr
    unfold ColumnCommitmentsM.tryExtendColumnsWithOffset at hr
    cases hfind : (cols.map Prod.fst).find?
        (fun i => decide (i ∈ cc.columnMetadata.map Prod.fst)) with
    | some ident => rw [hfind] at hr; exact absurd hr (by simp)
    | none =>
      rw [hfind] at hr
      cases hfrom : tryFromColumnsWithOffset (C := C) (M := M)
          commitF metaOf cols offset with
      | error e => rw [hfrom] at hr; exact absurd hr (by simp)
      | ok newCc =>
        rw [hfrom] at hr
        obtain ⟨⟨hnewnd, hnewlen⟩, hnewids⟩ :=
          tryFrom_ok_invariant commitF metaOf cols offset newCc hfrom
        have hrw : r = ⟨cc.commitments ++ newCc.commitments,
            cc.columnMetadata ++ newCc.columnMetadata⟩ :=
          (Except.ok.inj hr).symm
        have hdisj : ∀ x ∈ newCc.columnMetadata.map Prod.fst,
            x ∉ cc.columnMetadata.map Prod.fst := by
          intro x hx
          rw [hnewids] at hx
          have := List.find?_eq_none.mp hfind x hx
          simpa using this
        constructor
        · rw [hrw]
          simp only [List.map_append]
          rw [List.nodup_append]
          refine ⟨hinv.1, hnewnd, ?_⟩
          intro x hx hx'
          exact hdisj x hx' hx
        · rw [hrw]
          simp [hinv.2, hnewlen]
  · intro hnd
    cases hfd : findDuplicate [] (cols.map Prod.fst) with
    | none => exact absurd ((findDuplicate_eq_none_iff [] _).mp hfd).1 hnd
    | some i =>
      exact ⟨.dup i, by
        unfold ColumnCommitmentsM.tryAppendRowsWithOffset
        rw [hfd]⟩
  · intro r hr
    unfold ColumnCommitmentsM.tryAppendRowsWithOffset at hr
    cases hfd : findDuplicate [] (cols.map Prod.fst) with
    | some i => rw [hfd] at hr; exact absurd hr (by simp)
    | none =>
      rw [hfd] at hr
      cases hu : tryUnionMeta cc.columnMetadata
          (cols.map (fun p => (p.1, metaOf p.2))) with
      | error e => rw [hu] at hr; exact absurd hr (by simp)
      | ok meta =>
        rw [hu] at hr
        obtain ⟨hab, hma⟩ := tryUnionMeta_ok_imp _ _ _ hu
        have hrw : r = ⟨List.zipWith (· + ·) cc.commitments
            (cols.map (fun p => commitF p.2 offset)), meta⟩ :=
          (Except.ok.inj hr).symm
        have hcolslen : cc.columnMetadata.length = cols.length := by
          rw [hab]
          simp
        constructor
        · rw [hrw]
          simp only [hma]
          exact hinv.1
        · rw [hrw]
          simp only [hma, List.length_zipWith, List.length_map]
          rw [hinv.2, hcolslen]
          simp

/-- Witness for C8 at a concrete duplicate-identifier input over `ZMod 5`
columns. -/
theorem column_commitments_no_duplicate_identifiers_witness :
    ccInvariant (ColumnCommitmentsM.mk (C := ZMod 5) (M := Nat) [] []) ∧
    (¬ (([("a", (1 : ZMod 5)), ("a", 2)].map Prod.fst)).Nodup) ∧
    ∃ e, tryFromColumnsWithOffset (fun (c : ZMod 5) (_ : Nat) => c)
        (fun _ => (0 : Nat)) [("a", (1 : ZMod 5)), ("a", 2)] 0 = .error e :=
  ⟨⟨by decide, by decide⟩, by decide,
    (column_commitments_no_duplicate_identifiers
      (fun (c : ZMod 5) (_ : Nat) => c) (fun _ => (0 : Nat))
      [("a", (1 : ZMod 5)), ("a", 2)] 0
      (ColumnCommitmentsM.mk (C := ZMod 5) (M := Nat) [] [])
      ⟨by decide, by decide⟩).1 (by decide)⟩

end ClaimC8

section ClaimC9

/-- The BN254 base field modulus (the field of `G1Affine` coordinates). -/
def bnBasePrime : Nat :=
  21888242871839275222246405745257275088696311157297823662689037894645226208583

instance : NeZero bnBasePrime := ⟨by norm_num [bnBasePrime]⟩

/-- The coordinate field `Fq` of BN254 `G1` points. -/
abbrev Fq := ZMod bnBasePrime

/-- Little-endian base-256 digits, `k` bytes. -/
def natToBytesLE : Nat → Nat → List Nat
  | 0, _ => []
  | k + 1, x => x % 256 :: natToBytesLE k (x / 256)

/-- Reassemble a little-endian byte list into a natural number. -/
def bytesToNatLE (bs : List Nat) : Nat :=
  bs.foldr (fun b acc => b + 256 * acc) 0

theorem bytesToNatLE_cons (b : Nat) (bs : List Nat) :
    bytesToNatLE (b :: bs) = b + 256 * bytesToNatLE bs := rfl

theorem bytesToNatLE_natToBytesLE (k x : Nat) (h : x < 256 ^ k) :
    bytesToNatLE (natToBytesLE k x) = x := by
  induction k generalizing x with
  | zero =>
    simp only [pow_zero, Nat.lt_one_iff] at h
    simp [natToBytesLE, bytesToNatLE, h]
  | succ k ih =>
    have hdiv : x / 256 < 256 ^ k := by
      rw [Nat.div_lt_iff_lt_mul (by norm_num)]
      calc x < 256 ^ (k + 1) := h
        _ = 256 ^ k * 256 := by ring
    simp only [natToBytesLE, bytesToNatLE_cons, ih _ hdiv]
    exact Nat.mod_add_div x 256

theorem bytesToNatLE_replicate_zero (k : Nat) :
    bytesToNatLE (List.replicate k 0) = 0 := by
  induction k with
  | zero => rfl
  | succ k ih => simp [List.replicate, bytesToNatLE_cons, ih]

/-- Serialization of one coordinate: 32 little-endian bytes of the value,
then reversed to big-endian (`CanonicalSerialize::serialize_uncompressed`
followed by `reverse()` in commitment.rs lines 30-37). -/
def serializeFq (x : Fq) : List Nat := (natToBytesLE 32 x.val).reverse

/-- Deserialization of one coordinate: reverse the big-endian bytes back to
little-endian and reassemble; the canonical deserializer rejects values not
below the field modulus (commitment.rs lines 49-54). -/
def deserializeFq (bs : List Nat) : Option Fq :=
  if bytesToNatLE bs.reverse < bnBasePrime then
    some ((bytesToNatLE bs.reverse : Nat) : Fq)
  else none

/-- The two all-zero 32-byte coordinate encodings of the identity point. -/
def zeroBytes32 : List Nat := List.replicate 32 0

/-- Shallow embedding of `Serialize for HyperKZGCommitment` (commitment.rs
lines 24-42): a `G1` point in affine form, `none` denoting the group
identity, which is encoded as two all-zero 32-byte coordinates. -/
def serializeHyperKZGCommitment : Option (Fq × Fq) → List Nat × List Nat
  | none => (zeroBytes32, zeroBytes32)
  | some (x, y) => (serializeFq x, serializeFq y)

/-- Shallow embedding of `Deserialize for HyperKZGCommitment`
(commitment.rs lines 43-61): two all-zero coordinate encodings decode to
the identity; otherwise both coordinates are canonically deserialized. -/
def deserializeHyperKZGCommitment (xb yb : List Nat) :
    Option (Option (Fq × Fq)) :=
  if xb = zeroBytes32 ∧ yb = zeroBytes32 then some none
  else
    match deserializeFq xb, deserializeFq yb with
    | some x, some y => some (some (x, y))
    | _, _ => none

/-- A value of the commitment type: the identity, or an affine point on the
BN254 curve `y^2 = x^3 + 3`. -/
def isValidCommitmentPoint : Option (Fq × Fq) → Prop
  | none => True
  | some (x, y) => y ^ 2 = x ^ 3 + 3

theorem bnBasePrime_lt_pow : bnBasePrime < 256 ^ 32 := by
  norm_num [bnBasePrime]

theorem deserializeFq_serializeFq (x : Fq) :
    deserializeFq (serializeFq x) = some x := by
  unfold deserializeFq serializeFq
  rw [List.reverse_reverse,
    bytesToNatLE_natToBytesLE 32 x.val
      (lt_trans (ZMod.val_lt x) bnBasePrime_lt_pow),
    if_pos (ZMod.val_lt x)]
  exact congrArg some (ZMod.natCast_rightInverse x)

theorem serializeFq_eq_zeroBytes_imp (x : Fq)
    (h : serializeFq x = zeroBytes32) : x = 0 := by
  have hle : natToBytesLE 32 x.val = List.replicate 32 0 := by
    have h2 := congrArg List.reverse h
    rw [serializeFq, List.reverse_reverse] at h2
    rw [h2, zeroBytes32, List.reverse_replicate]
  have hv : x.val = 0 := by
    rw [← bytesToNatLE_natToBytesLE 32 x.val
      (lt_trans (ZMod.val_lt x) bnBasePrime_lt_pow), hle,
      bytesToNatLE_replicate_zero]
  exact (ZMod.val_eq_zero x).mp hv

theorem three_ne_zero_fq : (3 : Fq) ≠ 0 := by
  intro h
  have h2 : ((3 : Nat) : Fq) = 0 := by exact_mod_cast h
  rw [ZMod.natCast_zmod_eq_zero_iff_dvd] at h2
  have := Nat.le_of_dvd (by norm_num) h2
  norm_num [bnBasePrime] at this

/-- C9: deserializing the serialization of a commitment yields the
commitment again, including the degenerate identity case, which is encoded
as two all-zero 32-byte coordinates and decoded back to the identity. -/
theorem hyperkzg_serde_roundtrip (p : Option (Fq × Fq))
    (h : isValidCommitmentPoint p) :
    deserializeHyperKZGCommitment (serializeHyperKZGCommitment p).1
        (serializeHyperKZGCommitment p).2 = some p ∧
    serializeHyperKZGCommitment none = (zeroBytes32, zeroBytes32) := by
  refine ⟨?_, rfl⟩
  cases p with
  | none =>
    show deserializeHyperKZGCommitment zeroBytes32 zeroBytes32 = some none
    unfold deserializeHyperKZGCommitment
    rw [if_pos ⟨rfl, rfl⟩]
  | some xy =>
    obtain ⟨x, y⟩ := xy
    have hval : y ^ 2 = x ^ 3 + 3 := h
    have hnz : ¬(serializeFq x = zeroBytes32 ∧ serializeFq y = zeroBytes32) := by
      rintro ⟨hx, hy⟩
      have hx0 : x = 0 := serializeFq_eq_zeroBytes_imp x hx
      have hy0 : y = 0 := serializeFq_eq_zeroBytes_imp y hy
      rw [hx0, hy0] at hval
      have h3 : (3 : Fq) = 0 := by linear_combination -hval
      exact three_ne_zero_fq h3
    show deserializeHyperKZGCommitment (serializeFq x) (serializeFq y) =
      some (some (x, y))
    unfold deserializeHyperKZGCommitment
    rw [if_neg hnz, deserializeFq_serializeFq x, deserializeFq_serializeFq y]

/-- Witness for C9 at the identity commitment. -/
theorem hyperkzg_serde_roundtrip_witness :
    isValidCommitmentPoint (none : Option (Fq × Fq)) ∧
    deserializeHyperKZGCommitment
        (serializeHyperKZGCommitment (none : Option (Fq × Fq))).1
        (serializeHyperKZGCommitment (none : Option (Fq × Fq))).2 =
      some none :=
  ⟨trivial, (hyperkzg_serde_roundtrip none trivial).1⟩

end ClaimC9

end ProofOfSql
